import Mathlib

/-!
# Meeting_bot: audio chunker, transcription bridge, transcript forwarder, broadcast server

A shallow embedding of the real-time pipeline of the repository:

* `Chunker`   : `src/pcm16_to_ndjson.js`
* `Bridge`    : `src/ndjson_to_openai_ws.js`
* `Forwarder` : `src/openai_to_ws.js`
* `Broadcast` : `src/websocket-server.js`

Conventions of the embedding.

* Handlers registered with `on(...)` become functions from a state record to a
  state record; the module-level `let` variables are the fields of the record.
* Everything written to a socket or to stdout is appended to a log held in the
  state, in the order of the calls.
* Numbers read from the environment are integers (`Int`) of magnitude below `2 ^ 53`,
  which JavaScript holds without rounding.  The chunk size of the Chunker is computed
  as the program computes it, in double arithmetic (`Chunker.roundTiesEven`); on the
  integer settings of the Bridge the program's double arithmetic is exact.
  Fractional or non-numeric settings are outside the model.
* A JavaScript string is a `String`, and one of its characters a `Char`.  JavaScript
  indexes a string by UTF-16 code unit; for a character outside the Basic
  Multilingual Plane the unit read is a surrogate, which belongs to none of the
  character classes the Forwarder tests, just as the character itself.
* `JSON.parse` and `String.prototype.trim` are library functions: the handlers take
  them as a parameter (`JS.Runtime`), and the results hold for every such pair.
-/

set_option autoImplicit false

/-! ## Chunker (`src/pcm16_to_ndjson.js`) -/

namespace Chunker

/-- One octet of a Node `Buffer`. -/
abbrev Byte := Fin 256

/-- A Node `Buffer`, as the list of its octets. -/
abbrev Buffer := List Byte

/-- The constant `BYTES_PER_SAMPLE = 2`. -/
def BYTES_PER_SAMPLE : Int := 2

/-- The nearest integer to `num / den`, a tie going to the even one: the rounding of
every arithmetic operation on JavaScript numbers (IEEE 754 doubles). -/
def roundTiesEven (num den : Nat) : Nat :=
  if 2 * (num % den) < den then num / den
  else if den < 2 * (num % den) then num / den + 1
  else if (num / den) % 2 = 0 then num / den else num / den + 1

/-- The binary scale of the double `ms / 1000`: the greatest `t` up to the bound with
`ms * 2 ^ t / 1000 < 2 ^ 53`, which leaves 53 significant bits to the quotient. -/
def quotientShift (ms : Nat) : Nat → Nat
  | 0 => 0
  | t + 1 => if ms * 2 ^ (t + 1) < 2 ^ 53 * 1000 then t + 1 else quotientShift ms t

/-- The double `CHUNK_MS / 1000` for `1 ≤ ms < 2 ^ 53`: the pair `(m, t)` stands for
`m / 2 ^ t`, the quotient rounded to 53 significant bits. -/
def divBy1000 (ms : Nat) : Nat × Nat :=
  (roundTiesEven (ms * 2 ^ quotientShift ms 62) 1000, quotientShift ms 62)

/-- The number of low bits an integer gives up to fit in 53 significant bits: the
greatest `s` up to the bound with `2 ^ (52 + s) ≤ n`, and 0 when `n < 2 ^ 53`. -/
def droppedBits (n : Nat) : Nat → Nat
  | 0 => 0
  | s + 1 => if 2 ^ (53 + s) ≤ n then s + 1 else droppedBits n s

/-- The double product `a * q` of an integer `a < 2 ^ 54` and a double `q = m / 2 ^ t`:
the triple `(m', s, t)` stands for `m' * 2 ^ s / 2 ^ t`, the exact product
`a * m / 2 ^ t` rounded to 53 significant bits. -/
def mulDouble (a : Nat) (q : Nat × Nat) : Nat × Nat × Nat :=
  (roundTiesEven (a * q.1) (2 ^ droppedBits (a * q.1) 64), droppedBits (a * q.1) 64, q.2)

/-- The value `Math.round(x)` for the double `x = m * 2 ^ s / 2 ^ t`: the integer
`floor (x + 1/2)`. -/
def mathRound (p : Nat × Nat × Nat) : Nat :=
  (2 * p.1 * 2 ^ p.2.1 + 2 ^ p.2.2) / 2 ^ (p.2.2 + 1)

/-- The constant
`CHUNK_BYTES = Math.max(1, Math.round(SR * BYTES_PER_SAMPLE * (CHUNK_MS / 1000)))`,
computed as the program computes it, in double arithmetic: the quotient
`CHUNK_MS / 1000` is rounded, then its product with `SR * BYTES_PER_SAMPLE` (which is
exact), then `Math.round` and `Math.max` are exact.  When `SR * CHUNK_MS` is not
positive the rounded value is at most 0 and the constant is 1.  The settings are
integers of magnitude below `2 ^ 53`, which `parseInt` returns without rounding. -/
def CHUNK_BYTES (SR CHUNK_MS : Int) : Nat :=
  if 0 < SR * CHUNK_MS then
    max 1 (mathRound (mulDouble (SR * BYTES_PER_SAMPLE).natAbs (divBy1000 CHUNK_MS.natAbs)))
  else 1

/-- The value `round(num / den)` of the spec, in exact arithmetic, halves going up. -/
def roundHalfUp (num : Int) (den : Nat) : Int :=
  (2 * num + den) / (2 * den)

/-- The chunk size in the words of the spec, `max(1, round(R × 2 × D / 1000))`, in
exact arithmetic. -/
def specChunkBytes (R D : Int) : Int :=
  max 1 (roundHalfUp (R * 2 * D) 1000)

/-- Module state: `buf`, and the payloads of the records written to stdout so far. -/
structure State where
  buf : Buffer
  out : List Buffer
deriving DecidableEq, Repr

/-- Initial state: `let buf = Buffer.alloc(0)`, nothing written. -/
def init : State := { buf := [], out := [] }

/-- The function `emit(b)`: `if (!b?.length) return;` otherwise one record carrying
`b` is written. -/
def emit (b : Buffer) (out : List Buffer) : List Buffer :=
  if b.length = 0 then out else out ++ [b]

/-- The loop `while (buf.length >= CHUNK_BYTES) { emit(buf.subarray(0, CHUNK_BYTES));
buf = buf.subarray(CHUNK_BYTES); }`, one iteration per unit of fuel; `none` when the
fuel runs out before the loop condition fails. -/
def drainLoop : Nat → Nat → Buffer → List Buffer → Option State
  | 0, _, _, _ => none
  | fuel + 1, C, buf, out =>
    if buf.length ≥ C then
      drainLoop fuel C (buf.drop C) (emit (buf.take C) out)
    else
      some { buf := buf, out := out }

/-- The stdin `'data'` handler: `buf = Buffer.concat([buf, chunk])`, then the loop. -/
def onData (C : Nat) (st : State) (chunk : Buffer) : Option State :=
  drainLoop ((st.buf ++ chunk).length + 1) C (st.buf ++ chunk) st.out

/-- The stdin `'end'` handler: `if (buf.length) emit(buf)`; returns everything written. -/
def onEnd (st : State) : List Buffer :=
  if st.buf.length ≠ 0 then emit st.buf st.out else st.out

/-- A sequence of `'data'` events, in order. -/
def feed (C : Nat) : State → List Buffer → Option State
  | st, [] => some st
  | st, chunk :: rest =>
    match onData C st chunk with
    | none => none
    | some st' => feed C st' rest

/-- A whole stream: the `'data'` events followed by `'end'`; the Frames emitted. -/
def run (C : Nat) (chunks : List Buffer) : Option (List Buffer) :=
  (feed C init chunks).map onEnd

/-- What the loop guarantees: every emitted Frame has `C` bytes, fewer than `C`
bytes stay buffered, and emitted bytes followed by the buffer are the bytes so far. -/
def Inv (C : Nat) (pre : Buffer) (st : State) : Prop :=
  st.out.flatten ++ st.buf = pre ∧ (∀ f ∈ st.out, f.length = C) ∧ st.buf.length < C

end Chunker

/-! ## JavaScript values shared by the Bridge and the Forwarder -/

namespace JS

/-- A value returned by `JSON.parse`. -/
inductive Json where
  | null
  | bool (b : Bool)
  | num (n : Int)
  | str (s : String)
  | arr (xs : List Json)
  | obj (kvs : List (String × Json))

/-- Property read `v.k` on a value that is not `null`: the property of an object,
`none` (JavaScript `undefined`) when it is missing or `v` is not an object. -/
def Json.get (v : Json) (k : String) : Option Json :=
  match v with
  | .obj kvs => kvs.lookup k
  | _ => none

/-- The test `x === s` for a string literal `s`. -/
def strictEqStr (x : Option Json) (s : String) : Bool :=
  match x with
  | some (.str t) => t == s
  | _ => false

/-- The test `typeof x === 'string'`. -/
def typeofString (x : Option Json) : Bool :=
  match x with
  | some (.str _) => true
  | _ => false

/-- The two library functions the handlers call on their input text: `JSON.parse`
(`none` when it throws) and `String.prototype.trim`. -/
structure Runtime where
  parse : String → Option Json
  trim : String → String

end JS

/-! ## Transcription Bridge (`src/ndjson_to_openai_ws.js`) -/

namespace Bridge

open JS

/-- The environment variables the Bridge reads; `none` is unset or empty, so that the
`|| default` applies. -/
structure Env where
  FORCE_MANUAL_COMMITS : Bool
  CHUNK_MS : Option Int
  MIN_COMMIT_MS : Option Int
  TAIL_COMMIT_MS : Option Int
  FORWARD_ALL : Bool
deriving DecidableEq, Repr

/-- The value `Math.ceil(a / b)` for integers `a` and `b > 0`. -/
def mathCeilDiv (a b : Int) : Int := -((-a) / b)

/-- The constant `FORCE_MANUAL`, and `manualCommit`, which is never reassigned. -/
def FORCE_MANUAL (e : Env) : Bool := e.FORCE_MANUAL_COMMITS

/-- The constant `CHUNK_MS = Math.max(1, Number(process.env.CHUNK_MS || 20))`. -/
def CHUNK_MS (e : Env) : Int := max 1 (e.CHUNK_MS.getD 20)

/-- The constant `MIN_COMMIT_MS = Math.max(CHUNK_MS, Number(process.env.MIN_COMMIT_MS || 800))`. -/
def MIN_COMMIT_MS (e : Env) : Int := max (CHUNK_MS e) (e.MIN_COMMIT_MS.getD 800)

/-- The constant `TAIL_COMMIT_MS = Math.max(0, Number(process.env.TAIL_COMMIT_MS || 120))`. -/
def TAIL_COMMIT_MS (e : Env) : Int := max 0 (e.TAIL_COMMIT_MS.getD 120)

/-- The constant `CHUNKS_PER_COMMIT = Math.max(1, Math.ceil(MIN_COMMIT_MS / CHUNK_MS))`. -/
def CHUNKS_PER_COMMIT (e : Env) : Nat :=
  (max 1 (mathCeilDiv (MIN_COMMIT_MS e) (CHUNK_MS e))).toNat

/-- The constant `MIN_TAIL_CHUNKS = Math.max(1, Math.ceil(TAIL_COMMIT_MS / CHUNK_MS))`. -/
def MIN_TAIL_CHUNKS (e : Env) : Nat :=
  (max 1 (mathCeilDiv (TAIL_COMMIT_MS e) (CHUNK_MS e))).toNat

/-- The setting is unset, or an integer of magnitude below `2 ^ 53`: `Number()` reads
such a value without rounding, and `Math.ceil` of the quotient of two such values is
the exact ceiling. -/
def exactSetting : Option Int → Bool
  | none => true
  | some v => decide (-(2 ^ 53) < v ∧ v < 2 ^ 53)

/-- Every duration setting of the Bridge is unset or an integer number of
milliseconds of magnitude below `2 ^ 53`. -/
def integerSettings (e : Env) : Bool :=
  exactSetting e.CHUNK_MS && exactSetting e.MIN_COMMIT_MS && exactSetting e.TAIL_COMMIT_MS

/-- One call of `ws.send`, named by the call site: the session configuration sent
on open, an input line forwarded as it is, or the commit instruction. -/
inductive UpMsg where
  | sessionUpdate (manual : Bool)
  | forward (line : String)
  | commit
deriving DecidableEq, Repr

/-- The variables of the Bridge and what it has done so far. -/
structure State where
  configured : Bool
  chunksSinceCommit : Nat
  /-- Calls of `ws.send`, oldest first. -/
  sent : List UpMsg
  /-- Calls of `process.stdout.write`, oldest first. -/
  stdout : List String
  /-- Whether `ws.close()` has been called. -/
  wsClosed : Bool
  /-- Whether a handler threw an exception nobody catches. -/
  crashed : Bool
deriving DecidableEq, Repr

/-- State at start: `configured = false`, `chunksSinceCommit = 0`. -/
def init : State :=
  { configured := false, chunksSinceCommit := 0, sent := [], stdout := [],
    wsClosed := false, crashed := false }

def T_UPDATED : String := "transcription_session.updated"
def T_DELTA : String := "conversation.item.input_audio_transcription.delta"
def T_COMPLETED : String := "conversation.item.input_audio_transcription.completed"
def T_APPEND : String := "input_audio_buffer.append"

/-- The `ws.on('open')` handler. -/
def onOpen (e : Env) (st : State) : State :=
  { st with sent := st.sent ++ [UpMsg.sessionUpdate (FORCE_MANUAL e)] }

/-- The `ws.on('message')` handler, `raw` being `buf.toString('utf8')`. -/
def onMessage (rt : Runtime) (e : Env) (st : State) (raw : String) : State :=
  match rt.parse raw with
  | none => st
  | some Json.null => { st with crashed := true }
  | some evt =>
    if strictEqStr (evt.get "type") T_UPDATED then
      { st with configured := true }
    else if e.FORWARD_ALL then
      { st with stdout := st.stdout ++ [raw ++ "\n"] }
    else if strictEqStr (evt.get "type") T_DELTA ||
        strictEqStr (evt.get "type") T_COMPLETED then
      { st with stdout := st.stdout ++ [raw ++ "\n"] }
    else st

/-- The test `obj?.type === 'input_audio_buffer.append' && typeof obj.audio === 'string'`. -/
def isAppend (obj : Json) : Bool :=
  strictEqStr (obj.get "type") T_APPEND && typeofString (obj.get "audio")

/-- The `rl.on('line')` handler. -/
def onLine (rt : Runtime) (e : Env) (st : State) (line : String) : State :=
  if !st.configured then st
  else
    match rt.parse (rt.trim line) with
    | none => st
    | some obj =>
      if isAppend obj then
        let st1 := { st with sent := st.sent ++ [UpMsg.forward (rt.trim line)] }
        if FORCE_MANUAL e then
          if st.chunksSinceCommit + 1 ≥ CHUNKS_PER_COMMIT e then
            { st1 with sent := st1.sent ++ [UpMsg.commit], chunksSinceCommit := 0 }
          else
            { st1 with chunksSinceCommit := st.chunksSinceCommit + 1 }
        else st1
      else st

/-- The `rl.on('close')` handler. -/
def onClose (e : Env) (st : State) : State :=
  let st1 :=
    if FORCE_MANUAL e && decide (st.chunksSinceCommit ≥ MIN_TAIL_CHUNKS e) then
      { st with sent := st.sent ++ [UpMsg.commit] }
    else st
  { st1 with wsClosed := true }

/-- What can happen to the Bridge. -/
inductive Event where
  | wsOpen
  | wsMessage (raw : String)
  | line (text : String)
  | rlClose
deriving DecidableEq, Repr

/-- One event; nothing runs any more once a handler has thrown. -/
def step (rt : Runtime) (e : Env) (st : State) (ev : Event) : State :=
  if st.crashed then st
  else
    match ev with
    | .wsOpen => onOpen e st
    | .wsMessage raw => onMessage rt e st raw
    | .line text => onLine rt e st text
    | .rlClose => onClose e st

/-- A sequence of events, in order. -/
def run (rt : Runtime) (e : Env) (st : State) (evs : List Event) : State :=
  evs.foldl (step rt e) st

/-- The message is the configuration acknowledgment: the one that sets `configured`. -/
def isAck (rt : Runtime) (raw : String) : Bool :=
  match rt.parse raw with
  | some evt => strictEqStr (evt.get "type") T_UPDATED
  | none => false

/-- The line is a valid append record: it passes the test of the `'line'` handler. -/
def validAppend (rt : Runtime) (line : String) : Bool :=
  match rt.parse (rt.trim line) with
  | some obj => isAppend obj
  | none => false

/-- Number of commit instructions in a log of sends. -/
def commitCount (log : List UpMsg) : Nat := log.count UpMsg.commit

/-- The sends the commit rule prescribes for the lines that follow `i` forwarded
frames: every line is forwarded, and a commit follows the frame whose number, counted
from 1, is a multiple of `K`. -/
def expectedSends (rt : Runtime) (K : Nat) : Nat → List String → List UpMsg
  | _, [] => []
  | i, l :: ls =>
    (if (i + 1) % K = 0 then [UpMsg.forward (rt.trim l), UpMsg.commit]
      else [UpMsg.forward (rt.trim l)]) ++ expectedSends rt K (i + 1) ls

/-- Sample texts: an append record, the acknowledgment, and two transcript events. -/
def sampleAppend : String :=
  "\x7b\"type\":\"input_audio_buffer.append\",\"audio\":\"AAAA\"\x7d"
def sampleAck : String := "\x7b\"type\":\"transcription_session.updated\"\x7d"
def sampleDelta : String :=
  "\x7b\"type\":\"conversation.item.input_audio_transcription.delta\",\"delta\":\"Hi\"\x7d"
def sampleOther : String := "\x7b\"type\":\"input_audio_buffer.committed\"\x7d"

/-- The function `JSON.parse` on the sample texts (any other text is taken as
unparseable), and `trim` on text without surrounding blanks. -/
def sampleRuntime : Runtime where
  parse := fun s =>
    if s = sampleAppend then
      some (.obj [("type", .str T_APPEND), ("audio", .str "AAAA")])
    else if s = sampleAck then some (.obj [("type", .str T_UPDATED)])
    else if s = sampleDelta then
      some (.obj [("type", .str T_DELTA), ("delta", .str "Hi")])
    else if s = sampleOther then some (.obj [("type", .str "input_audio_buffer.committed")])
    else if s = "null" then some .null
    else none
  trim := fun s => s

/-- The event is an input line. -/
def Event.isLine : Event → Bool
  | .line _ => true
  | _ => false

/-- Manual-commit mode, 20 ms chunks, 800 ms per commit, default tail (120 ms). -/
def e2eEnv : Env :=
  { FORCE_MANUAL_COMMITS := true, CHUNK_MS := some 20, MIN_COMMIT_MS := some 800,
    TAIL_COMMIT_MS := none, FORWARD_ALL := false }

/-- Manual-commit mode, 20 ms chunks, `TAIL_COMMIT_MS=0`. -/
def tailZeroEnv : Env :=
  { FORCE_MANUAL_COMMITS := true, CHUNK_MS := some 20, MIN_COMMIT_MS := none,
    TAIL_COMMIT_MS := some 0, FORWARD_ALL := false }

/-- Defaults, with `FORWARD_ALL=1`. -/
def forwardAllEnv : Env :=
  { FORCE_MANUAL_COMMITS := false, CHUNK_MS := none, MIN_COMMIT_MS := none,
    TAIL_COMMIT_MS := none, FORWARD_ALL := true }

/-- A Bridge whose configuration has just been acknowledged. -/
def configuredInit : State := { init with configured := true }

/-- The record the Chunker writes for a Frame of 640 zero bytes: the base64 text of
640 zero bytes is 854 times `A` followed by `==`. -/
def silenceLine : String :=
  "\x7b\"type\":\"input_audio_buffer.append\",\"audio\":\"" ++
    String.mk (List.replicate 854 'A') ++ "==\"\x7d"

/-- One second of silence at 16 kHz, 16 bits per sample, read in one piece. -/
def silenceAudio : List Chunker.Buffer := [List.replicate 32000 0]

/-- The function `JSON.parse` on `silenceLine` (any other text is taken as
unparseable), and `trim` on text without surrounding blanks. -/
def silenceRuntime : Runtime where
  parse := fun s =>
    if s = silenceLine then
      some (.obj [("type", .str T_APPEND),
        ("audio", .str (String.mk (List.replicate 854 'A') ++ "=="))])
    else none
  trim := fun s => s

end Bridge

/-! ## Transcript Forwarder (`src/openai_to_ws.js`) -/

namespace Forwarder

open JS

/-- The settings read from the environment: `OUTPUT_MODE` is the value after
`|| 'both'` and `toLowerCase()`. -/
structure Env where
  OUTPUT_MODE : String
  SMART_SPACING : Bool
  MIRROR_STDOUT : Bool
deriving DecidableEq, Repr

def T_DELTA : String := "conversation.item.input_audio_transcription.delta"
def T_COMPLETED : String := "conversation.item.input_audio_transcription.completed"

/-- The test `isSpace`: blank, tab, line feed or carriage return. -/
def isSpace (ch : Char) : Bool :=
  ch = ' ' || ch = '\t' || ch = '\n' || ch = '\r'

/-- The test `isAlphaNum`: the class `[A-Za-z0-9Ā-ž]`, where `Ā` is U+0100 and `ž` is U+017E. -/
def isAlphaNum (ch : Char) : Bool :=
  (decide ('A' ≤ ch) && decide (ch ≤ 'Z')) || (decide ('a' ≤ ch) && decide (ch ≤ 'z')) ||
    (decide ('0' ≤ ch) && decide (ch ≤ '9')) ||
    (decide (0x100 ≤ ch.toNat) && decide (ch.toNat ≤ 0x17E))

/-- The test `isSentenceEnd`: full stop, exclamation mark or question mark. -/
def isSentenceEnd (ch : Char) : Bool :=
  ch = '.' || ch = '!' || ch = '?'

/-- The closing characters tested last in `needsSpace`: `)`, the double quote
(U+0022) and the single quote (U+0027). -/
def isCloser (ch : Char) : Bool :=
  ch = ')' || ch = Char.ofNat 0x22 || ch = Char.ofNat 0x27

/-- Alphanumeric, as the spacing rule means it, by code point: a letter `A`..`Z` or
`a`..`z`, a digit `0`..`9`, or a character from U+0100 to U+017E. -/
def Alphanumeric (c : Char) : Prop :=
  (0x41 ≤ c.toNat ∧ c.toNat ≤ 0x5A) ∨ (0x61 ≤ c.toNat ∧ c.toNat ≤ 0x7A) ∨
    (0x30 ≤ c.toNat ∧ c.toNat ≤ 0x39) ∨ (0x100 ≤ c.toNat ∧ c.toNat ≤ 0x17E)

/-- The function `needsSpace(prev, nextFirst)`; `none` is a missing or empty argument. -/
def needsSpace (prev nextFirst : Option Char) : Bool :=
  match prev, nextFirst with
  | some p, some n =>
    if isSpace p then false
    else if isSentenceEnd p && isAlphaNum n then true
    else if isAlphaNum p && isAlphaNum n then true
    else if isCloser p && isAlphaNum n then true
    else false
  | _, _ => false

/-- The function `stitch(delta)`: the text returned and the new value of `lastOutChar`. -/
def stitch (e : Env) (lastOutChar : Char) (delta : String) : String × Char :=
  if !e.SMART_SPACING then (delta, lastOutChar)
  else
    let out := (if needsSpace (some lastOutChar) delta.data.head? then " " else "") ++ delta
    (out, out.data.getLast?.getD lastOutChar)

/-- Truthiness of a value, as `||` tests it. -/
def truthy : Option Json → Bool
  | none => false
  | some .null => false
  | some (.bool b) => b
  | some (.num n) => decide (n ≠ 0)
  | some (.str t) => decide (t ≠ "")
  | some _ => true

/-- The expression `evt.item?.id`. -/
def itemDotId (evt : Json) : Option Json :=
  match evt.get "item" with
  | none => none
  | some .null => none
  | some item => item.get "id"

/-- The expression `evt.item?.id || evt.item_id || null`. -/
def itemIdOf (evt : Json) : Json :=
  if truthy (itemDotId evt) then (itemDotId evt).getD .null
  else if truthy (evt.get "item_id") then (evt.get "item_id").getD .null
  else .null

/-- The object handed to `outSend`: `type`, `text`, `item_id`, and `t` (the clock). -/
structure OutEvent where
  type : String
  text : String
  item_id : Json
  t : Nat

/-- The value of `typeof x === 'string' ? x : ''` before any stitching. -/
def stringOrEmpty (x : Option Json) : String :=
  match x with
  | some (.str t) => t
  | _ => ""

/-- What the `'line'` handler does with one line, apart from the delivery itself:
the object it hands to `outSend` (if any), the text it mirrors to stdout (if any),
the new `lastOutChar`, and whether it threw. -/
structure Reaction where
  emit : Option OutEvent
  mirror : Option String
  lastOutChar : Char
  threw : Bool

/-- The body of the `rl.on('line')` handler; `now` is the value of `Date.now()`. -/
def handleLine (rt : Runtime) (e : Env) (lastOutChar : Char) (line : String) (now : Nat) :
    Reaction :=
  let idle : Reaction :=
    { emit := none, mirror := none, lastOutChar := lastOutChar, threw := false }
  if rt.trim line = "" then idle
  else
    match rt.parse (rt.trim line) with
    | none => idle
    | some Json.null => { idle with threw := true }
    | some evt =>
      if strictEqStr (evt.get "type") T_DELTA then
        if e.OUTPUT_MODE = "completed" then idle
        else
          let r : String × Char :=
            match evt.get "delta" with
            | some (.str d) => stitch e lastOutChar d
            | _ => ("", lastOutChar)
          { emit := some { type := "delta", text := r.1, item_id := itemIdOf evt, t := now },
            mirror := if e.MIRROR_STDOUT then some r.1 else none,
            lastOutChar := r.2, threw := false }
      else if strictEqStr (evt.get "type") T_COMPLETED then
        if e.OUTPUT_MODE = "delta" then idle
        else
          { emit := some { type := "completed", text := stringOrEmpty (evt.get "text"),
                           item_id := itemIdOf evt, t := now },
            mirror := if e.MIRROR_STDOUT then some "\n" else none,
            lastOutChar := '\n', threw := false }
      else idle

/-- The variables of the Forwarder and what it has done so far.  A serialized
message is kept as the object it serializes. -/
structure State where
  outReady : Bool
  /-- Whether `outWs.readyState === WebSocket.OPEN`. -/
  wsOpen : Bool
  outQueue : List OutEvent
  /-- The messages `outWs.send` has accepted, oldest first. -/
  delivered : List OutEvent
  lastOutChar : Char
  /-- Calls of `process.stdout.write`, oldest first. -/
  stdout : List String
  /-- Whether a handler threw an exception nobody catches. -/
  crashed : Bool

/-- State at start: `outReady = false`, empty queue, `lastOutChar = '\n'`. -/
def init : State :=
  { outReady := false, wsOpen := false, outQueue := [], delivered := [],
    lastOutChar := '\n', stdout := [], crashed := false }

/-- The function `outSend(obj)`; `sendOk` tells whether `outWs.send` returns rather than throws,
should it be called. -/
def outSend (st : State) (msg : OutEvent) (sendOk : Bool) : State :=
  if st.outReady && st.wsOpen then
    if sendOk then { st with delivered := st.delivered ++ [msg] }
    else { st with outQueue := st.outQueue ++ [msg] }
  else { st with outQueue := st.outQueue ++ [msg] }

/-- One input line: a line, the clock, and the fate of a send. -/
structure LineEvent where
  line : String
  now : Nat
  sendOk : Bool

/-- The `rl.on('line')` handler; nothing runs any more once a handler has thrown. -/
def onLine (rt : Runtime) (e : Env) (st : State) (ev : LineEvent) : State :=
  if st.crashed then st
  else
    let r := handleLine rt e st.lastOutChar ev.line ev.now
    if r.threw then { st with crashed := true }
    else
      let st1 : State :=
        match r.emit with
        | some msg => outSend st msg ev.sendOk
        | none => st
      { st1 with
        lastOutChar := r.lastOutChar,
        stdout := match r.mirror with
          | some t => st1.stdout ++ [t]
          | none => st1.stdout }

/-- A sequence of input lines, in order. -/
def runLines (rt : Runtime) (e : Env) (st : State) (evs : List LineEvent) : State :=
  evs.foldl (onLine rt e) st

/-- The line is a delta event: it takes the first branch of the handler. -/
def isDeltaLine (rt : Runtime) (line : String) : Bool :=
  !(rt.trim line = "") &&
    match rt.parse (rt.trim line) with
    | some evt => strictEqStr (evt.get "type") T_DELTA
    | none => false

/-- The line is a completed event: it takes the second branch of the handler. -/
def isCompletedLine (rt : Runtime) (line : String) : Bool :=
  !(rt.trim line = "") &&
    match rt.parse (rt.trim line) with
    | some evt => strictEqStr (evt.get "type") T_COMPLETED
    | none => false

/-- The `delta` property of the event on the line, when it is a string. -/
def deltaOf (rt : Runtime) (line : String) : Option String :=
  match rt.parse (rt.trim line) with
  | some evt =>
    (match evt.get "delta" with
      | some (.str d) => some d
      | _ => none)
  | none => none

/-- Sample lines: two delta events and a completed event. -/
def lineHello : String :=
  "\x7b\"type\":\"conversation.item.input_audio_transcription.delta\"," ++
    "\"delta\":\"Hello.\"\x7d"
def lineWorld : String :=
  "\x7b\"type\":\"conversation.item.input_audio_transcription.delta\"," ++
    "\"delta\":\"World\"\x7d"
def lineDone : String :=
  "\x7b\"type\":\"conversation.item.input_audio_transcription.completed\"," ++
    "\"text\":\"Hello.\"\x7d"

/-- The function `JSON.parse` on the sample lines (any other text is taken as
unparseable), and `trim` on text without surrounding blanks. -/
def sampleRuntime : Runtime where
  parse := fun s =>
    if s = lineHello then some (.obj [("type", .str T_DELTA), ("delta", .str "Hello.")])
    else if s = lineWorld then some (.obj [("type", .str T_DELTA), ("delta", .str "World")])
    else if s = lineDone then
      some (.obj [("type", .str T_COMPLETED), ("text", .str "Hello.")])
    else none
  trim := fun s => s

/-- Stitching on, delta events only. -/
def deltaOnlyEnv : Env :=
  { OUTPUT_MODE := "delta", SMART_SPACING := true, MIRROR_STDOUT := false }

/-- Stitching on, both kinds of events. -/
def bothEnv : Env :=
  { OUTPUT_MODE := "both", SMART_SPACING := true, MIRROR_STDOUT := false }

/-- The loop of `flushOutQueue`: `msg = outQueue.shift()`, then `outWs.send(msg)`; when
the send throws, `outQueue.unshift(msg)` and `break`.  The argument `ok k` tells
whether send number `k` of this flush returns rather than throws.  The result is the
queue left, the messages the sink has accepted, and the messages `send` was called on. -/
def flushLoop (ok : Nat → Bool) :
    Nat → List OutEvent → List OutEvent → List OutEvent →
      List OutEvent × List OutEvent × List OutEvent
  | _, [], delivered, attempted => ([], delivered, attempted)
  | k, msg :: rest, delivered, attempted =>
    if ok k then flushLoop ok (k + 1) rest (delivered ++ [msg]) (attempted ++ [msg])
    else (msg :: rest, delivered, attempted ++ [msg])

/-- The function `flushOutQueue()`: the new state, and the messages `outWs.send` was
called on, in order. -/
def flushOutQueue (st : State) (ok : Nat → Bool) : State × List OutEvent :=
  if !st.outReady then (st, [])
  else
    let r := flushLoop ok 0 st.outQueue st.delivered []
    ({ st with outQueue := r.1, delivered := r.2.1 }, r.2.2)

/-- The function `connectOutWS()` up to the registration of the handlers: a new socket,
not open yet, and `outReady = false`. -/
def connectOutWS (st : State) : State :=
  { st with outReady := false, wsOpen := false }

/-- The `outWs.on('open')` handler: `outReady = true; flushOutQueue()`; the socket is
open when this event fires. -/
def onOutOpen (st : State) (ok : Nat → Bool) : State :=
  (flushOutQueue { st with outReady := true, wsOpen := true } ok).1

/-- The `outWs.on('close')` handler: `outReady = false`; the socket is closed. -/
def onOutClose (st : State) : State :=
  { st with outReady := false, wsOpen := false }

/-- What can happen on the sink side of the Forwarder: a call of `outSend` (with the
fate of its send, should it send), the sink opening (with the fates of the sends of
the flush), the sink closing, and the reconnection the timer starts. -/
inductive SinkEvent where
  | send (msg : OutEvent) (sendOk : Bool)
  | opened (ok : Nat → Bool)
  | closed
  | reconnect

/-- One sink event. -/
def sinkStep (st : State) : SinkEvent → State
  | .send msg sendOk => outSend st msg sendOk
  | .opened ok => onOutOpen st ok
  | .closed => onOutClose st
  | .reconnect => connectOutWS st

/-- A sequence of sink events, in order. -/
def runSink (st : State) (evs : List SinkEvent) : State :=
  evs.foldl sinkStep st

/-- The messages passed to `outSend`, in the order of the calls. -/
def callsOf : List SinkEvent → List OutEvent
  | [] => []
  | .send msg _ :: rest => msg :: callsOf rest
  | _ :: rest => callsOf rest

/-- No call of `outWs.send` throws: neither in a call of `outSend` nor in a flush. -/
def NoThrow : List SinkEvent → Prop
  | [] => True
  | .send _ sendOk :: rest => sendOk = true ∧ NoThrow rest
  | .opened ok :: rest => (∀ k, ok k = true) ∧ NoThrow rest
  | _ :: rest => NoThrow rest

/-- A sample message with the given text. -/
def sampleMsg (text : String) : OutEvent :=
  { type := "delta", text := text, item_id := Json.null, t := 0 }

/-- Every send returns. -/
def allOk : Nat → Bool := fun _ => true

end Forwarder

/-! ## Broadcast Server (`src/websocket-server.js`) -/

namespace Broadcast

/-- A subscriber connection (a `ws` object), named by a number. -/
abbrev ConnId := Nat

/-- The `Map` from session id to the `Set` of connections, both in insertion order. -/
abbrev Table := List (String × List ConnId)

/-- The call `clients.has(k)`. -/
def mapHas (m : Table) (k : String) : Bool := (m.lookup k).isSome

/-- The call `clients.get(k)`; `none` is `undefined`. -/
def mapGet (m : Table) (k : String) : Option (List ConnId) := m.lookup k

/-- The call `clients.set(k, v)`, also used for a change made in place to the `Set`
stored under `k`. -/
def mapSet (m : Table) (k : String) (v : List ConnId) : Table :=
  if mapHas m k then m.map (fun p => if p.1 = k then (k, v) else p)
  else m ++ [(k, v)]

/-- The call `clients.delete(k)`. -/
def mapDelete (m : Table) (k : String) : Table :=
  m.filter (fun p => decide (p.1 ≠ k))

/-- The call `set.add(ws)`. -/
def setAdd (s : List ConnId) (ws : ConnId) : List ConnId :=
  if ws ∈ s then s else s ++ [ws]

/-- The call `set.delete(ws)`. -/
def setDelete (s : List ConnId) (ws : ConnId) : List ConnId :=
  s.filter (fun c => decide (c ≠ ws))

/-- The server: the table `this.clients`, the `'close'` handlers registered on the
connections (each with the session id it captured), and what the server has done to
the connections: calls of `ws.close(code)` and acknowledgments sent. -/
structure State where
  clients : Table
  closeHandlers : List (ConnId × String)
  closeCalls : List (ConnId × Nat)
  acks : List (ConnId × String)
deriving DecidableEq, Repr

/-- A new server: `this.clients = new Map()`. -/
def init : State :=
  { clients := [], closeHandlers := [], closeCalls := [], acks := [] }

/-- The `wss.on('connection')` handler; `sessionId` is the value of
`url.searchParams.get('sessionId')`, `none` being `null`. -/
def onConnection (st : State) (ws : ConnId) (sessionId : Option String) : State :=
  match sessionId with
  | none => { st with closeCalls := st.closeCalls ++ [(ws, 1008)] }
  | some sid =>
    if sid = "" then { st with closeCalls := st.closeCalls ++ [(ws, 1008)] }
    else
      let clients1 := if !mapHas st.clients sid then mapSet st.clients sid [] else st.clients
      let clients2 := mapSet clients1 sid (setAdd ((mapGet clients1 sid).getD []) ws)
      { st with
        clients := clients2,
        closeHandlers := st.closeHandlers ++ [(ws, sid)],
        acks := st.acks ++ [(ws, sid)] }

/-- The `ws.on('close')` handler registered for `ws` with session id `sid`. -/
def closeHandler (st : State) (ws : ConnId) (sid : String) : State :=
  if mapHas st.clients sid then
    let members := setDelete ((mapGet st.clients sid).getD []) ws
    let clients1 := mapSet st.clients sid members
    if members.length = 0 then { st with clients := mapDelete clients1 sid }
    else { st with clients := clients1 }
  else st

/-- The `'close'` event of `ws`: the handler registered on it runs, if there is one. -/
def onWsClose (st : State) (ws : ConnId) : State :=
  match st.closeHandlers.lookup ws with
  | some sid => closeHandler st ws sid
  | none => st

/-- The function `getClientCount(sessionId)`. -/
def getClientCount (st : State) (sessionId : String) : Nat :=
  if mapHas st.clients sessionId then ((mapGet st.clients sessionId).getD []).length else 0

/-- The function `getActiveSessions()`. -/
def getActiveSessions (st : State) : List String :=
  st.clients.map Prod.fst

/-- What `broadcastToSession` has done: the server state after the call, the number
returned, the connections `send` was called on and those whose send returned. -/
structure BroadcastResult where
  st : State
  sentCount : Nat
  attempted : List ConnId
  reached : List ConnId
deriving DecidableEq, Repr

/-- The `forEach` of `broadcastToSession`: `isOpen c` is `client.readyState ===
WebSocket.OPEN`, and `sendOk c` tells whether `client.send(message)` returns rather
than throws. -/
def broadcastLoop (isOpen sendOk : ConnId → Bool) :
    List ConnId → Nat × List ConnId × List ConnId → Nat × List ConnId × List ConnId
  | [], acc => acc
  | c :: cs, (sentCount, attempted, reached) =>
    if isOpen c then
      if sendOk c then
        broadcastLoop isOpen sendOk cs (sentCount + 1, attempted ++ [c], reached ++ [c])
      else broadcastLoop isOpen sendOk cs (sentCount, attempted ++ [c], reached)
    else broadcastLoop isOpen sendOk cs (sentCount, attempted, reached)

/-- The function `broadcastToSession(sessionId, data)`. -/
def broadcastToSession (st : State) (sessionId : String) (isOpen sendOk : ConnId → Bool) :
    BroadcastResult :=
  if !mapHas st.clients sessionId then
    { st := st, sentCount := 0, attempted := [], reached := [] }
  else
    let r := broadcastLoop isOpen sendOk ((mapGet st.clients sessionId).getD []) (0, [], [])
    { st := st, sentCount := r.1, attempted := r.2.1, reached := r.2.2 }

/-- What can happen to the server: a connection arrives, or a connection closes. -/
inductive Event where
  | connection (ws : ConnId) (sessionId : Option String)
  | close (ws : ConnId)
deriving DecidableEq, Repr

/-- One event. -/
def step (st : State) : Event → State
  | .connection ws sessionId => onConnection st ws sessionId
  | .close ws => onWsClose st ws

/-- A sequence of events, in order. -/
def run (st : State) (evs : List Event) : State :=
  evs.foldl step st

/-- The connection of a `'connection'` event. -/
def Event.connIdOf : Event → Option ConnId
  | .connection ws _ => some ws
  | .close _ => none

/-- Every `'connection'` event brings a connection object of its own. -/
def FreshIds (evs : List Event) : Prop :=
  (evs.filterMap Event.connIdOf).Nodup

instance decidableFreshIds (evs : List Event) : Decidable (FreshIds evs) :=
  inferInstanceAs (Decidable (evs.filterMap Event.connIdOf).Nodup)

/-- The subscribers that have connected with a session id and not disconnected yet,
after one more event: a connection with a non-empty id joins, a close leaves. -/
def liveStep (l : List (ConnId × String)) : Event → List (ConnId × String)
  | .connection ws (some sid) => if sid = "" then l else l ++ [(ws, sid)]
  | .connection _ none => l
  | .close ws => l.filter (fun p => decide (p.1 ≠ ws))

/-- The subscribers that have connected with a session id and not disconnected yet. -/
def live (evs : List Event) : List (ConnId × String) :=
  evs.foldl liveStep []

/-- The number of live subscribers of session `S`. -/
def liveCount (evs : List Event) (S : String) : Nat :=
  ((live evs).filter (fun p => decide (p.2 = S))).length

/-- The members of session `S` in the table, none when it has no entry. -/
def membersOf (st : State) (S : String) : List ConnId :=
  (mapGet st.clients S).getD []

/-- No entry of the table maps to an empty set. -/
def NonEmptyEntries (st : State) : Prop :=
  ∀ (S : String) (ms : List ConnId), mapGet st.clients S = some ms → ms ≠ []

/-- The server state agrees with the list `l` of live subscribers, `seen` being the
connections that have arrived so far: the members of every session are its live
subscribers in order of arrival, no entry is empty, every live subscriber has its
`'close'` handler registered with its session id, and handlers are registered on
connections that have arrived only. -/
def Agrees (st : State) (l : List (ConnId × String)) (seen : List ConnId) : Prop :=
  (∀ S, membersOf st S = (l.filter (fun p => decide (p.2 = S))).map Prod.fst) ∧
    NonEmptyEntries st ∧
    (∀ p ∈ l, st.closeHandlers.lookup p.1 = some p.2) ∧
    (∀ p ∈ st.closeHandlers, p.1 ∈ seen)

end Broadcast

/-! ## Chunker: proofs -/

namespace Chunker

lemma drainLoop_spec (C : Nat) (hC : 1 ≤ C) :
    ∀ (fuel : Nat) (buf : Buffer) (out : List Buffer),
      buf.length < fuel → (∀ f ∈ out, f.length = C) →
      ∃ st, drainLoop fuel C buf out = some st ∧ Inv C (out.flatten ++ buf) st := by
  intro fuel
  induction fuel with
  | zero => intro buf out h; omega
  | succ n ih =>
    intro buf out hlen hout
    unfold drainLoop
    by_cases hge : buf.length ≥ C
    · simp only [hge, if_true]
      have htake : (buf.take C).length = C := by
        rw [List.length_take]; omega
      have hemit : emit (buf.take C) out = out ++ [buf.take C] := by
        unfold emit
        rw [if_neg (by omega)]
      rw [hemit]
      have hdrop : (buf.drop C).length < n := by
        rw [List.length_drop]; omega
      have hout' : ∀ f ∈ out ++ [buf.take C], f.length = C := by
        intro f hf
        rcases List.mem_append.mp hf with h | h
        · exact hout f h
        · rw [List.mem_singleton.mp h]; exact htake
      obtain ⟨st, hst, hinv⟩ := ih (buf.drop C) (out ++ [buf.take C]) hdrop hout'
      refine ⟨st, hst, ?_⟩
      have heq : (out ++ [buf.take C]).flatten ++ buf.drop C = out.flatten ++ buf := by
        simp [List.flatten_append, List.append_assoc, List.take_append_drop]
      rw [heq] at hinv
      exact hinv
    · simp only [hge, if_false]
      exact ⟨_, rfl, rfl, hout, by simpa using hge⟩

lemma onData_spec (C : Nat) (hC : 1 ≤ C) (pre : Buffer) (st : State) (chunk : Buffer)
    (h : Inv C pre st) :
    ∃ st', onData C st chunk = some st' ∧ Inv C (pre ++ chunk) st' := by
  obtain ⟨h1, h2, _⟩ := h
  obtain ⟨st', hst, hinv⟩ :=
    drainLoop_spec C hC ((st.buf ++ chunk).length + 1) (st.buf ++ chunk) st.out
      (Nat.lt_succ_self _) h2
  refine ⟨st', hst, ?_⟩
  rw [← List.append_assoc, h1] at hinv
  exact hinv

lemma feed_spec (C : Nat) (hC : 1 ≤ C) :
    ∀ (chunks : List Buffer) (pre : Buffer) (st : State), Inv C pre st →
      ∃ st', feed C st chunks = some st' ∧ Inv C (pre ++ chunks.flatten) st' := by
  intro chunks
  induction chunks with
  | nil => intro pre st h; exact ⟨st, rfl, by simpa using h⟩
  | cons c cs ih =>
    intro pre st h
    obtain ⟨st1, h1, hinv1⟩ := onData_spec C hC pre st c h
    obtain ⟨st2, h2, hinv2⟩ := ih (pre ++ c) st1 hinv1
    refine ⟨st2, ?_, ?_⟩
    · simp only [feed, h1]; exact h2
    · simpa [List.append_assoc] using hinv2

lemma init_inv (C : Nat) (hC : 1 ≤ C) : Inv C [] init :=
  ⟨rfl, (by intro f hf; cases hf), (by simpa [init] using hC)⟩

/-- The state reached at `'end'`: it exists, and satisfies the loop guarantee for
the whole input. -/
lemma run_spec (C : Nat) (hC : 1 ≤ C) (chunks : List Buffer) :
    ∃ st, Inv C chunks.flatten st ∧ run C chunks = some (onEnd st) := by
  obtain ⟨st, hst, hinv⟩ := feed_spec C hC chunks [] init (init_inv C hC)
  exact ⟨st, by simpa using hinv, by simp [run, hst]⟩

lemma onEnd_eq (st : State) :
    onEnd st = if st.buf = [] then st.out else st.out ++ [st.buf] := by
  unfold onEnd emit
  by_cases h : st.buf = []
  · simp [h]
  · have : st.buf.length ≠ 0 := by
      intro h0; exact h (List.length_eq_zero.mp h0)
    simp [h, this]

lemma onEnd_flatten (st : State) : (onEnd st).flatten = st.out.flatten ++ st.buf := by
  rw [onEnd_eq]
  by_cases h : st.buf = []
  · simp [h]
  · simp [h, List.flatten_append]

/-- C1. Chunker round trip: for every chunk size `C ≥ 1` and every sequence of
`'data'` chunks followed by `'end'`, the chunker terminates and the payloads of the
emitted Frames, concatenated in emission order, are exactly the concatenation of
the input chunks. -/
theorem chunker_round_trip (C : Nat) (hC : 1 ≤ C) (chunks : List Buffer) :
    ∃ frames, run C chunks = some frames ∧ frames.flatten = chunks.flatten := by
  obtain ⟨st, hinv, hrun⟩ := run_spec C hC chunks
  exact ⟨onEnd st, hrun, by rw [onEnd_flatten]; exact hinv.1⟩

/-- Witness for C1: chunk size 2 on the stream `[1,2,3] [4,5]`. -/
theorem chunker_round_trip_witness :
    1 ≤ 2 ∧ ∃ frames, run 2 [[1, 2, 3], [4, 5]] = some frames ∧
      frames.flatten = [[1, 2, 3], [4, 5]].flatten :=
  ⟨by decide, chunker_round_trip 2 (by decide) [[1, 2, 3], [4, 5]]⟩

lemma CHUNK_BYTES_pos (SR CHUNK_MS : Int) : 1 ≤ CHUNK_BYTES SR CHUNK_MS := by
  unfold CHUNK_BYTES
  split
  · exact le_max_left _ _
  · exact le_refl _

lemma length_flatten_of_forall_length (C : Nat) :
    ∀ out : List Buffer, (∀ f ∈ out, f.length = C) → out.flatten.length = out.length * C := by
  intro out
  induction out with
  | nil => intro _; simp
  | cons f fs ih =>
    intro h
    have hf : f.length = C := h f (List.mem_cons_self _ _)
    have hfs : fs.flatten.length = fs.length * C :=
      ih (fun g hg => h g (List.mem_cons_of_mem _ hg))
    simp only [List.flatten_cons, List.length_append, List.length_cons, hf, hfs]
    ring

lemma ceil_count (C k r : Nat) (hC : 1 ≤ C) (hr : r < C) :
    ⌈((k * C + r : Nat) : ℚ) / (C : ℚ)⌉₊ = k + (if r = 0 then 0 else 1) := by
  have hCq : (0 : ℚ) < (C : ℚ) := by exact_mod_cast hC
  by_cases h0 : r = 0
  · subst h0
    have : ((k * C + 0 : Nat) : ℚ) / (C : ℚ) = (k : ℚ) := by
      rw [Nat.add_zero, Nat.cast_mul]
      field_simp
    rw [this]
    simp
  · rw [if_neg h0, Nat.ceil_eq_iff (by omega)]
    constructor
    · rw [lt_div_iff₀ hCq]
      have : k * C < k * C + r := by omega
      have h2 : (((k + 1 - 1 : Nat) : ℚ)) = (k : ℚ) := by simp
      rw [h2]
      exact_mod_cast this
    · rw [div_le_iff₀ hCq]
      have : k * C + r ≤ (k + 1) * C := by nlinarith
      exact_mod_cast this

/-- The framing facts for an arbitrary chunk size `C ≥ 1`. -/
lemma framing_of_inv (C : Nat) (hC : 1 ≤ C) (pre : Buffer) (st : State) (h : Inv C pre st) :
    (onEnd st).length = ⌈(pre.length : ℚ) / (C : ℚ)⌉₊ ∧
    (∀ (i : Nat) (hi : i < (onEnd st).length), i + 1 < (onEnd st).length →
        ((onEnd st).get ⟨i, hi⟩).length = C) ∧
    (∀ f ∈ onEnd st, 0 < f.length ∧ f.length ≤ C) := by
  obtain ⟨h1, h2, h3⟩ := h
  have hlen : pre.length = st.out.length * C + st.buf.length := by
    rw [← h1, List.length_append, length_flatten_of_forall_length C st.out h2]
  refine ⟨?_, ?_, ?_⟩
  · rw [hlen, ceil_count C st.out.length st.buf.length hC h3, onEnd_eq]
    by_cases hb : st.buf = []
    · simp [hb]
    · have : st.buf.length ≠ 0 := fun h0 => hb (List.length_eq_zero.mp h0)
      simp [hb, this]
  · intro i hi hi'
    rw [onEnd_eq] at hi hi'
    have hmem : (onEnd st).get ⟨i, by rw [onEnd_eq]; exact hi⟩ ∈ st.out := by
      have hlt : i < st.out.length := by
        by_cases hb : st.buf = []
        · simp [hb] at hi; exact hi
        · simp [hb] at hi'; exact hi'
      have : (onEnd st).get ⟨i, by rw [onEnd_eq]; exact hi⟩ = st.out.get ⟨i, hlt⟩ := by
        simp only [onEnd_eq, List.get_eq_getElem]
        by_cases hb : st.buf = []
        · simp [hb]
        · simp only [hb, if_false]
          exact List.getElem_append_left hlt
      rw [this]
      exact List.get_mem _ _ _
    exact h2 _ hmem
  · intro f hf
    rw [onEnd_eq] at hf
    have hout : ∀ g ∈ st.out, 0 < g.length ∧ g.length ≤ C := by
      intro g hg
      rw [h2 g hg]; exact ⟨hC, le_refl _⟩
    by_cases hb : st.buf = []
    · simp only [hb, if_true] at hf
      exact hout f hf
    · simp only [hb, if_false] at hf
      rcases List.mem_append.mp hf with h | h
      · exact hout f h
      · rw [List.mem_singleton.mp h]
        exact ⟨List.length_pos.mpr hb, le_of_lt h3⟩

/-- A stream whose length is `n * C` comes out as `n` Frames of `C` bytes, with
nothing left for a shorter last Frame. -/
lemma onEnd_of_multiple (C n : Nat) (hC : 1 ≤ C) (pre : Buffer) (st : State)
    (h : Inv C pre st) (hpre : pre.length = n * C) :
    onEnd st = st.out ∧ st.out.length = n ∧ ∀ f ∈ st.out, f.length = C := by
  obtain ⟨h1, h2, h3⟩ := h
  have hlen : n * C = st.out.length * C + st.buf.length := by
    have := congrArg List.length h1
    rw [List.length_append, length_flatten_of_forall_length C st.out h2, hpre] at this
    exact this.symm
  have hk : st.out.length = n := by
    rcases Nat.lt_trichotomy st.out.length n with hlt | heq | hgt
    · have : (st.out.length + 1) * C ≤ n * C := Nat.mul_le_mul_right C hlt
      have h4 : (st.out.length + 1) * C = st.out.length * C + C := by ring
      omega
    · exact heq
    · have : (n + 1) * C ≤ st.out.length * C := Nat.mul_le_mul_right C hgt
      have h4 : (n + 1) * C = n * C + C := by ring
      omega
  have hbuf : st.buf = [] := by
    apply List.length_eq_zero.mp
    rw [hk] at hlen
    omega
  exact ⟨by rw [onEnd_eq, if_pos hbuf], hk, h2⟩

/-- A stream of `n * C` equal bytes comes out as `n` Frames of `C` of them. -/
lemma onEnd_replicate (C n : Nat) (hC : 1 ≤ C) (b : Byte) (st : State)
    (h : Inv C (List.replicate (n * C) b) st) :
    onEnd st = List.replicate n (List.replicate C b) := by
  obtain ⟨hend, hk, h2⟩ := onEnd_of_multiple C n hC _ st h (List.length_replicate _ _)
  rw [hend, List.eq_replicate_iff]
  refine ⟨hk, ?_⟩
  intro f hf
  rw [List.eq_replicate_iff]
  refine ⟨h2 f hf, ?_⟩
  intro x hx
  have hx' : x ∈ st.out.flatten ++ st.buf :=
    List.mem_append_left _ (List.mem_flatten.mpr ⟨f, hf, hx⟩)
  rw [h.1] at hx'
  exact (List.mem_replicate.mp hx').2

/-- The rounding is off by at most half a unit. -/
lemma roundTiesEven_err (num den : Nat) (hden : 0 < den) :
    2 * (roundTiesEven num den * den) ≤ 2 * num + den ∧
      2 * num ≤ 2 * (roundTiesEven num den * den) + den := by
  have hdm : den * (num / den) + num % den = num := Nat.div_add_mod num den
  have hlt : num % den < den := Nat.mod_lt _ hden
  have hcomm : num / den * den = den * (num / den) := Nat.mul_comm _ _
  have hsucc : (num / den + 1) * den = den * (num / den) + den := by ring
  unfold roundTiesEven
  split_ifs <;> (first | rw [hcomm] | rw [hsucc]) <;> omega

/-- The scale of the quotient is the greatest one below the bound. -/
lemma quotientShift_spec (ms : Nat) :
    ∀ f : Nat, (quotientShift ms f = 0 ∨ ms * 2 ^ quotientShift ms f < 2 ^ 53 * 1000) ∧
      (quotientShift ms f = f ∨ 2 ^ 53 * 1000 ≤ ms * (2 ^ quotientShift ms f * 2)) := by
  intro f
  induction f with
  | zero => simp [quotientShift]
  | succ t ih =>
    unfold quotientShift
    by_cases h : ms * 2 ^ (t + 1) < 2 ^ 53 * 1000
    · rw [if_pos h]
      exact ⟨Or.inr h, Or.inl rfl⟩
    · rw [if_neg h]
      refine ⟨ih.1, ?_⟩
      rcases ih.2 with h2 | h2
      · right
        rw [h2, ← pow_succ]
        omega
      · exact Or.inr h2

/-- The bits dropped leave at least 53 significant ones. -/
lemma droppedBits_spec (n : Nat) :
    ∀ f : Nat, droppedBits n f = 0 ∨ 2 ^ droppedBits n f * 2 ^ 52 ≤ n := by
  intro f
  induction f with
  | zero => simp [droppedBits]
  | succ s ih =>
    unfold droppedBits
    by_cases h : 2 ^ (53 + s) ≤ n
    · rw [if_pos h]
      right
      have : 2 ^ (s + 1) * 2 ^ 52 = 2 ^ (53 + s) := by
        rw [← pow_add]; congr 1; omega
      rw [this]; exact h
    · rw [if_neg h]
      exact ih

/-- Away from ties and below `2 ^ 51` the two roundings of the double computation do not
move the value across a tie: the result is the exact `round`. -/
lemma double_agrees_nat (sr ms : Nat) (hsr : 1 ≤ sr) (hms : 1 ≤ ms)
    (hlt : sr * 2 * ms < 2 ^ 51) (hne : (sr * 2 * ms) % 1000 ≠ 500) :
    mathRound (mulDouble (sr * 2) (divBy1000 ms)) = (sr * 2 * ms + 500) / 1000 := by
  unfold mathRound mulDouble divBy1000
  simp only [pow_succ]
  obtain ⟨hq1, hq2⟩ := quotientShift_spec ms 62
  generalize quotientShift ms 62 = t at hq1 hq2 ⊢
  have hpow62 : t = 62 → 2 ^ t = 2 ^ 62 := fun h => by rw [h]
  have hpow0 : t = 0 → 2 ^ t = 1 := fun h => by rw [h]; rfl
  have hTpos : 0 < 2 ^ t := by positivity
  generalize 2 ^ t = T at hq1 hq2 hpow62 hpow0 hTpos ⊢
  obtain ⟨hi1, hi2⟩ := roundTiesEven_err (ms * T) 1000 (by norm_num)
  generalize roundTiesEven (ms * T) 1000 = m at hi1 hi2 ⊢
  have hd := droppedBits_spec (sr * 2 * m) 64
  generalize droppedBits (sr * 2 * m) 64 = s at hd ⊢
  have hpowD : s = 0 → 2 ^ s = 1 := fun h => by rw [h]; rfl
  have hDpos : 0 < 2 ^ s := by positivity
  generalize 2 ^ s = D at hd hpowD hDpos ⊢
  obtain ⟨hii1, hii2⟩ := roundTiesEven_err (sr * 2 * m) D hDpos
  generalize roundTiesEven (sr * 2 * m) D = m' at hii1 hii2 ⊢
  -- the chunk duration quotient has a 53-bit significand
  have hmsle : ms ≤ sr * 2 * ms := Nat.le_mul_of_pos_left ms (by omega)
  have hiv : 2 ^ 52 * 1000 ≤ ms * T := by
    rcases hq2 with h | h
    · rw [hpow62 h]
      have : 1 * 2 ^ 62 ≤ ms * 2 ^ 62 := Nat.mul_le_mul_right _ hms
      norm_num at this ⊢
      omega
    · rw [← Nat.mul_assoc] at h
      norm_num at h ⊢
      omega
  have hiv' : ms * T < 2 ^ 53 * 1000 := by
    rcases hq1 with h | h
    · rw [hpow0 h]
      norm_num at hlt ⊢
      omega
    · exact h
  have hm53 : m ≤ 2 ^ 53 := by
    norm_num at hiv' ⊢
    omega
  have hD2a : D ≤ 2 * (sr * 2) := by
    rcases hd with h | h
    · rw [hpowD h]; omega
    · have h1 : sr * 2 * m ≤ sr * 2 * 2 ^ 53 := Nat.mul_le_mul_left _ hm53
      norm_num at h h1 ⊢
      omega
  have hkey : 500 * (sr * 2 + D) < T := by
    by_contra hcon
    have hle : T ≤ 500 * (sr * 2 + D) := Nat.le_of_not_lt hcon
    have h1 : ms * T ≤ ms * (500 * (sr * 2 + D)) := Nat.mul_le_mul_left _ hle
    have h2 : ms * D ≤ ms * (2 * (sr * 2)) := Nat.mul_le_mul_left _ hD2a
    have h3 : ms * (500 * (sr * 2 + D)) = 500 * (sr * 2 * ms) + 500 * (ms * D) := by ring
    have h4 : ms * (2 * (sr * 2)) = 2 * (sr * 2 * ms) := by ring
    rw [h3] at h1
    rw [h4] at h2
    norm_num at hiv hlt
    omega
  -- the two roundings, scaled by the sample factor
  have e1 : 2000 * (sr * 2 * m) ≤ 2 * (sr * 2 * ms * T) + 1000 * (sr * 2) := by
    have := Nat.mul_le_mul_left (sr * 2) hi1
    have h1 : sr * 2 * (2 * (m * 1000)) = 2000 * (sr * 2 * m) := by ring
    have h2 : sr * 2 * (2 * (ms * T) + 1000) = 2 * (sr * 2 * ms * T) + 1000 * (sr * 2) := by ring
    rw [h1, h2] at this
    exact this
  have e2 : 2 * (sr * 2 * ms * T) ≤ 2000 * (sr * 2 * m) + 1000 * (sr * 2) := by
    have := Nat.mul_le_mul_left (sr * 2) hi2
    have h1 : sr * 2 * (2 * (ms * T)) = 2 * (sr * 2 * ms * T) := by ring
    have h2 : sr * 2 * (2 * (m * 1000) + 1000) = 2000 * (sr * 2 * m) + 1000 * (sr * 2) := by ring
    rw [h1, h2] at this
    exact this
  -- the exact value lies strictly between two ties
  have hk : 1000 * ((sr * 2 * ms + 500) / 1000) + (sr * 2 * ms + 500) % 1000
      = sr * 2 * ms + 500 := Nat.div_add_mod _ _
  have hr0 : (sr * 2 * ms + 500) % 1000 ≠ 0 := by omega
  have hr1 : (sr * 2 * ms + 500) % 1000 < 1000 := Nat.mod_lt _ (by norm_num)
  generalize (sr * 2 * ms + 500) / 1000 = k at hk ⊢
  generalize (sr * 2 * ms + 500) % 1000 = r at hk hr0 hr1
  have hkT : 1000 * (k * T) + r * T = sr * 2 * ms * T + 500 * T := by
    have := congrArg (fun x => x * T) hk
    simp only at this
    rw [Nat.add_mul, Nat.add_mul, Nat.mul_assoc] at this
    exact this
  have hrT1 : 1 * T ≤ r * T := Nat.mul_le_mul_right _ (by omega)
  have hrT2 : r * T ≤ 999 * T := Nat.mul_le_mul_right _ (by omega)
  apply Nat.div_eq_of_lt_le
  · have : k * (T * 2) = 2 * (k * T) := by ring
    rw [this]
    have h5 : 2 * m' * D = 2 * (m' * D) := by ring
    rw [h5]
    omega
  · have : (k + 1) * (T * 2) = 2 * (k * T) + 2 * T := by ring
    rw [this]
    have h5 : 2 * m' * D = 2 * (m' * D) := by ring
    rw [h5]
    omega

lemma CHUNK_BYTES_eq_spec (SR CHUNK_MS : Int) (hSR : 1 ≤ SR) (hMS : 1 ≤ CHUNK_MS)
    (hlt : SR * 2 * CHUNK_MS < 2 ^ 51) (hne : (SR * 2 * CHUNK_MS) % 1000 ≠ 500) :
    (CHUNK_BYTES SR CHUNK_MS : Int) = specChunkBytes SR CHUNK_MS := by
  obtain ⟨sr, rfl⟩ := Int.eq_ofNat_of_zero_le (by omega : 0 ≤ SR)
  obtain ⟨ms, rfl⟩ := Int.eq_ofNat_of_zero_le (by omega : 0 ≤ CHUNK_MS)
  have hsr : 1 ≤ sr := by exact_mod_cast hSR
  have hms : 1 ≤ ms := by exact_mod_cast hMS
  have hlt' : sr * 2 * ms < 2 ^ 51 := by exact_mod_cast hlt
  have hne' : (sr * 2 * ms) % 1000 ≠ 500 := by
    intro h
    apply hne
    have : ((sr * 2 * ms : Nat) : Int) % 1000 = 500 := by omega
    push_cast at this
    exact this
  have hpos : (0 : Int) < (sr : Int) * (ms : Int) := by positivity
  have hagree := double_agrees_nat sr ms hsr hms hlt' hne'
  have habs1 : ((sr : Int) * BYTES_PER_SAMPLE).natAbs = sr * 2 := by
    unfold BYTES_PER_SAMPLE
    rw [Int.natAbs_mul]
    rfl
  have habs2 : ((ms : Int)).natAbs = ms := Int.natAbs_ofNat ms
  unfold CHUNK_BYTES specChunkBytes roundHalfUp
  rw [if_pos hpos, habs1, habs2, hagree]
  have hcast : ((sr : Int) * 2 * (ms : Int)) = ((sr * 2 * ms : Nat) : Int) := by push_cast; ring
  rw [hcast]
  generalize sr * 2 * ms = n
  rcases Nat.le_total 1 ((n + 500) / 1000) with h | h
  · rw [max_eq_right h, max_eq_right (by omega)]
    omega
  · rw [max_eq_left h, max_eq_left (by omega)]
    rfl

/-- A stream of `n * C + r` equal bytes, `0 < r < C`, comes out as `n` Frames of `C` of
them and a last Frame of `r`. -/
lemma onEnd_replicate_rem (C n r : Nat) (hr0 : 0 < r) (hr : r < C) (b : Byte) (st : State)
    (h : Inv C (List.replicate (n * C + r) b) st) :
    onEnd st = List.replicate n (List.replicate C b) ++ [List.replicate r b] := by
  obtain ⟨h1, h2, h3⟩ := h
  have hlen : n * C + r = st.out.length * C + st.buf.length := by
    have := congrArg List.length h1
    rw [List.length_append, length_flatten_of_forall_length C st.out h2,
      List.length_replicate] at this
    exact this.symm
  have hk : st.out.length = n := by
    rcases Nat.lt_trichotomy st.out.length n with hlt | heq | hgt
    · have : (st.out.length + 1) * C ≤ n * C := Nat.mul_le_mul_right C hlt
      have h4 : (st.out.length + 1) * C = st.out.length * C + C := by ring
      omega
    · exact heq
    · have : (n + 1) * C ≤ st.out.length * C := Nat.mul_le_mul_right C hgt
      have h4 : (n + 1) * C = n * C + C := by ring
      omega
  have hbuflen : st.buf.length = r := by
    rw [hk] at hlen
    omega
  have hall : ∀ x ∈ st.out.flatten ++ st.buf, x = b := by
    intro x hx
    rw [h1] at hx
    exact (List.mem_replicate.mp hx).2
  have hout : st.out = List.replicate n (List.replicate C b) := by
    rw [List.eq_replicate_iff]
    refine ⟨hk, ?_⟩
    intro f hf
    rw [List.eq_replicate_iff]
    exact ⟨h2 f hf, fun x hx =>
      hall x (List.mem_append_left _ (List.mem_flatten.mpr ⟨f, hf, hx⟩))⟩
  have hbuf : st.buf = List.replicate r b := by
    rw [List.eq_replicate_iff]
    exact ⟨hbuflen, fun x hx => hall x (List.mem_append_right _ hx)⟩
  have hne : st.buf ≠ [] := by
    intro hnil
    rw [hnil] at hbuflen
    simp at hbuflen
    omega
  rw [onEnd_eq, if_neg hne, hout, hbuf]

/-- Counterexample for C2: at 22050 Hz and 175 ms the exact value is the tie 7717.5
and the spec's `max(1, round(...))` is 7718, but the program computes the chunk size
in doubles and gets 7717; a stream of 7718 zero bytes comes out as a Frame of 7717
bytes and a Frame of 1 byte, which is not the one Frame `⌈7718 / 7718⌉` of the claim. -/
theorem chunker_framing_counterexample :
    CHUNK_BYTES 22050 175 = 7717 ∧ specChunkBytes 22050 175 = 7718 ∧
      run (CHUNK_BYTES 22050 175) [List.replicate 7718 0]
        = some [List.replicate 7717 0, [0]] ∧
      ([List.replicate 7717 0, [0]] : List Buffer).length
        ≠ ⌈((7718 : Nat) : ℚ) / ((specChunkBytes 22050 175 : Int) : ℚ)⌉₊ := by
  have hC : CHUNK_BYTES 22050 175 = 7717 := by decide
  have hS : specChunkBytes 22050 175 = 7718 := by decide
  refine ⟨hC, hS, ?_, ?_⟩
  · obtain ⟨st, hinv, hrun⟩ := run_spec 7717 (by norm_num) [List.replicate 7718 0]
    rw [List.flatten_cons, List.flatten_nil, List.append_nil] at hinv
    have hinv' : Inv 7717 (List.replicate (1 * 7717 + 1) 0) st := hinv
    rw [hC, hrun, onEnd_replicate_rem 7717 1 1 (by norm_num) (by norm_num) 0 st hinv']
    rfl
  · rw [hS]
    norm_num

/-- C2, amended. Chunker framing: the chunk size `C` the program computes, in double
arithmetic, is the spec's `max(1, round(R × 2 × D / 1000))` whenever `R, D ≥ 1`, the
product `R × 2 × D` is below `2 ^ 51` and is not 500 modulo 1000 (the exact value is
not a tie); with that `C`, always at least 1, every ended stream of `L` bytes,
however split into `'data'` chunks, yields exactly `⌈L / C⌉` Frames; all but possibly
the last have exactly `C` bytes; every Frame is non-empty and has at most `C`
bytes.  At 16000 Hz and 20 ms, 32000 zero bytes (in any split) give 50 Frames of 640
zero bytes each. -/
theorem chunker_framing (SR CHUNK_MS : Int) (chunks : List Buffer) :
    (1 ≤ SR → 1 ≤ CHUNK_MS → SR * 2 * CHUNK_MS < 2 ^ 51 →
        (SR * 2 * CHUNK_MS) % 1000 ≠ 500 →
        (CHUNK_BYTES SR CHUNK_MS : Int) = specChunkBytes SR CHUNK_MS) ∧
      1 ≤ CHUNK_BYTES SR CHUNK_MS ∧
      ∃ frames, run (CHUNK_BYTES SR CHUNK_MS) chunks = some frames ∧
        frames.length =
          ⌈(chunks.flatten.length : ℚ) / (CHUNK_BYTES SR CHUNK_MS : ℚ)⌉₊ ∧
        (∀ (i : Nat) (hi : i < frames.length), i + 1 < frames.length →
          (frames.get ⟨i, hi⟩).length = CHUNK_BYTES SR CHUNK_MS) ∧
        (∀ f ∈ frames, 0 < f.length ∧ f.length ≤ CHUNK_BYTES SR CHUNK_MS) ∧
        (CHUNK_BYTES 16000 20 = 640 ∧
          ∀ silence : List Buffer, silence.flatten = List.replicate 32000 0 →
            run (CHUNK_BYTES 16000 20) silence
              = some (List.replicate 50 (List.replicate 640 0))) := by
  refine ⟨CHUNK_BYTES_eq_spec SR CHUNK_MS, CHUNK_BYTES_pos SR CHUNK_MS, ?_⟩
  obtain ⟨st, hinv, hrun⟩ := run_spec _ (CHUNK_BYTES_pos SR CHUNK_MS) chunks
  obtain ⟨hcount, hfull, hne⟩ := framing_of_inv _ (CHUNK_BYTES_pos SR CHUNK_MS) _ st hinv
  refine ⟨onEnd st, hrun, hcount, hfull, hne, ?_⟩
  have h640 : CHUNK_BYTES 16000 20 = 640 := by decide
  refine ⟨h640, ?_⟩
  intro silence hs
  obtain ⟨st', hinv', hrun'⟩ := run_spec _ (CHUNK_BYTES_pos 16000 20) silence
  rw [hrun', h640] at *
  rw [hs] at hinv'
  have h32 : (32000 : Nat) = 50 * 640 := by norm_num
  rw [h32] at hinv'
  rw [onEnd_replicate 640 50 (by norm_num) 0 st' hinv']

end Chunker

/-! ## JavaScript values: proofs -/

namespace JS

lemma strictEqStr_iff (x : Option Json) (t : String) :
    strictEqStr x t = true ↔ x = some (Json.str t) := by
  unfold strictEqStr
  constructor
  · intro h
    split at h
    · rename_i u
      have : u = t := by simpa using h
      rw [this]
    · cases h
  · intro h
    rw [h]
    simp

end JS

/-! ## Transcription Bridge: proofs -/

namespace Bridge

open JS

lemma CHUNKS_PER_COMMIT_pos (e : Env) : 1 ≤ CHUNKS_PER_COMMIT e := by
  unfold CHUNKS_PER_COMMIT
  have h : (1 : Int) ≤ max 1 (mathCeilDiv (MIN_COMMIT_MS e) (CHUNK_MS e)) := le_max_left _ _
  omega

lemma MIN_TAIL_CHUNKS_pos (e : Env) : 1 ≤ MIN_TAIL_CHUNKS e := by
  unfold MIN_TAIL_CHUNKS
  have h : (1 : Int) ≤ max 1 (mathCeilDiv (TAIL_COMMIT_MS e) (CHUNK_MS e)) := le_max_left _ _
  omega

lemma CHUNK_MS_pos (e : Env) : 1 ≤ CHUNK_MS e := le_max_left _ _

lemma TAIL_COMMIT_MS_nonneg (e : Env) : 0 ≤ TAIL_COMMIT_MS e := le_max_left _ _

/-- The integer formula used for `Math.ceil(a / b)` is the ceiling of the quotient. -/
lemma mathCeilDiv_eq_ceil (a b : Int) (hb : 0 < b) :
    mathCeilDiv a b = ⌈(a : ℚ) / (b : ℚ)⌉ := by
  obtain ⟨n, rfl⟩ := Int.eq_ofNat_of_zero_le (le_of_lt hb)
  unfold mathCeilDiv
  have h1 : ⌊((-a : Int) : ℚ) / ((n : Nat) : ℚ)⌋ = (-a) / (n : Int) :=
    Rat.floor_intCast_div_natCast (-a) n
  have h2 : ((-a : Int) : ℚ) / ((n : Nat) : ℚ) = -((a : ℚ) / ((n : Int) : ℚ)) := by
    push_cast
    ring
  rw [h2, Int.floor_neg] at h1
  omega

/-- A valid append record on a configured Bridge in manual-commit mode. -/
lemma onLine_valid (rt : Runtime) (e : Env) (st : State) (l : String)
    (hcfg : st.configured = true) (hman : FORCE_MANUAL e = true)
    (hv : validAppend rt l = true) :
    onLine rt e st l =
      if st.chunksSinceCommit + 1 ≥ CHUNKS_PER_COMMIT e then
        { st with sent := st.sent ++ [UpMsg.forward (rt.trim l), UpMsg.commit],
                  chunksSinceCommit := 0 }
      else
        { st with sent := st.sent ++ [UpMsg.forward (rt.trim l)],
                  chunksSinceCommit := st.chunksSinceCommit + 1 } := by
  unfold validAppend at hv
  unfold onLine
  cases hp : rt.parse (rt.trim l) with
  | none => rw [hp] at hv; cases hv
  | some obj =>
    rw [hp] at hv
    simp only [hcfg, hman, hv, Bool.not_true, if_true, Bool.false_eq_true, if_false]
    split <;> simp [List.append_assoc]

lemma succ_mod_of_lt (K i : Nat) (h : i % K + 1 < K) : (i + 1) % K = i % K + 1 := by
  rw [← Nat.mod_add_mod, Nat.mod_eq_of_lt h]

lemma succ_mod_of_ge (K i : Nat) (hK : 1 ≤ K) (h : i % K + 1 ≥ K) : (i + 1) % K = 0 := by
  have hlt : i % K < K := Nat.mod_lt _ (by omega)
  have : i % K + 1 = K := by omega
  rw [← Nat.mod_add_mod, this, Nat.mod_self]

lemma succ_mod_ne_zero_of_lt (K i : Nat) (h : i % K + 1 < K) : (i + 1) % K ≠ 0 := by
  rw [succ_mod_of_lt K i h]; omega

/-- Feeding valid append records: the sends are the prescribed ones and the counter
is the number of frames forwarded so far, modulo the per-commit threshold. -/
lemma run_lines (rt : Runtime) (e : Env) (hman : FORCE_MANUAL e = true) :
    ∀ (lines : List String) (i : Nat) (st : State),
      st.configured = true → st.crashed = false →
      st.chunksSinceCommit = i % CHUNKS_PER_COMMIT e →
      (∀ l ∈ lines, validAppend rt l = true) →
      (run rt e st (lines.map Event.line)).sent
          = st.sent ++ expectedSends rt (CHUNKS_PER_COMMIT e) i lines ∧
        (run rt e st (lines.map Event.line)).chunksSinceCommit
          = (i + lines.length) % CHUNKS_PER_COMMIT e ∧
        (run rt e st (lines.map Event.line)).configured = true ∧
        (run rt e st (lines.map Event.line)).crashed = false ∧
        (run rt e st (lines.map Event.line)).stdout = st.stdout ∧
        (run rt e st (lines.map Event.line)).wsClosed = st.wsClosed := by
  intro lines
  induction lines with
  | nil => intro i st hcfg hlive hc _; simp [run, expectedSends, hc, hcfg, hlive]
  | cons l ls ih =>
    intro i st hcfg hlive hc hv
    have hK := CHUNKS_PER_COMMIT_pos e
    have hl : validAppend rt l = true := hv l (List.mem_cons_self _ _)
    have hls : ∀ x ∈ ls, validAppend rt x = true :=
      fun x hx => hv x (List.mem_cons_of_mem _ hx)
    have hstep : run rt e st ((l :: ls).map Event.line)
        = run rt e (onLine rt e st l) (ls.map Event.line) := by
      simp [run, step, hlive]
    rw [hstep, onLine_valid rt e st l hcfg hman hl]
    by_cases hge : st.chunksSinceCommit + 1 ≥ CHUNKS_PER_COMMIT e
    · rw [if_pos hge]
      have hmod : (i + 1) % CHUNKS_PER_COMMIT e = 0 :=
        succ_mod_of_ge _ i hK (by rw [← hc]; exact hge)
      obtain ⟨h1, h2, h3, h4, h5, h6⟩ := ih (i + 1)
        { st with sent := st.sent ++ [UpMsg.forward (rt.trim l), UpMsg.commit],
                  chunksSinceCommit := 0 } hcfg hlive (by simp [hmod]) hls
      refine ⟨?_, ?_, h3, h4, h5, h6⟩
      · rw [h1]; simp [expectedSends, hmod, List.append_assoc]
      · rw [h2]; simp [Nat.add_assoc, Nat.add_comm 1]
    · rw [if_neg hge]
      have hlt : i % CHUNKS_PER_COMMIT e + 1 < CHUNKS_PER_COMMIT e := by
        rw [← hc]; omega
      have hmod : (i + 1) % CHUNKS_PER_COMMIT e ≠ 0 := succ_mod_ne_zero_of_lt _ i hlt
      obtain ⟨h1, h2, h3, h4, h5, h6⟩ := ih (i + 1)
        { st with sent := st.sent ++ [UpMsg.forward (rt.trim l)],
                  chunksSinceCommit := st.chunksSinceCommit + 1 } hcfg hlive
        (by simp [hc, succ_mod_of_lt _ i hlt]) hls
      refine ⟨?_, ?_, h3, h4, h5, h6⟩
      · rw [h1]; simp [expectedSends, hmod, List.append_assoc]
      · rw [h2]; simp [Nat.add_assoc, Nat.add_comm 1]

/-- The prescribed sends hold one commit per multiple of `K` among the frame numbers. -/
lemma commitCount_expectedSends (rt : Runtime) (K : Nat) :
    ∀ (lines : List String) (i : Nat),
      commitCount (expectedSends rt K i lines) + i / K = (i + lines.length) / K := by
  intro lines
  induction lines with
  | nil => intro i; simp [expectedSends, commitCount]
  | cons l ls ih =>
    intro i
    have h := ih (i + 1)
    have hsucc := Nat.succ_div i K
    have hlen : i + (l :: ls).length = i + 1 + ls.length := by
      simp [Nat.add_assoc, Nat.add_comm 1]
    rw [hlen, ← h]
    unfold commitCount at *
    by_cases hm : (i + 1) % K = 0
    · have hd : K ∣ i + 1 := Nat.dvd_of_mod_eq_zero hm
      simp only [Nat.succ_eq_add_one, hd, if_true] at hsucc
      simp [expectedSends, hm, List.count_cons, List.count_append]
      omega
    · have hd : ¬ K ∣ i + 1 := fun hd => hm (Nat.mod_eq_zero_of_dvd hd)
      simp only [Nat.succ_eq_add_one, hd, if_false] at hsucc
      simp [expectedSends, hm, List.count_cons, List.count_append]
      omega

/-- C3. Bridge commit count: on a configured Bridge in manual-commit mode, for `N`
valid append records, with `K = CHUNKS_PER_COMMIT` and `T = MIN_TAIL_CHUNKS`: every
record is forwarded and a commit follows exactly the frames numbered `K, 2K, ...`
(the sends are `expectedSends`), which makes `N / K` commits before stream end; at
stream end one more commit is sent if `N % K ≥ T` and nothing is sent otherwise. -/
theorem bridge_commit_count (rt : Runtime) (e : Env) (st0 : State) (lines : List String)
    (hman : FORCE_MANUAL e = true) (hcfg : st0.configured = true)
    (hlive : st0.crashed = false) (hzero : st0.chunksSinceCommit = 0)
    (hvalid : ∀ l ∈ lines, validAppend rt l = true) :
    (run rt e st0 (lines.map Event.line)).sent
        = st0.sent ++ expectedSends rt (CHUNKS_PER_COMMIT e) 0 lines ∧
      commitCount (expectedSends rt (CHUNKS_PER_COMMIT e) 0 lines)
        = lines.length / CHUNKS_PER_COMMIT e ∧
      (run rt e st0 (lines.map Event.line ++ [Event.rlClose])).sent
        = (run rt e st0 (lines.map Event.line)).sent ++
            (if lines.length % CHUNKS_PER_COMMIT e ≥ MIN_TAIL_CHUNKS e
              then [UpMsg.commit] else []) := by
  obtain ⟨h1, h2, _, h4, _, _⟩ :=
    run_lines rt e hman lines 0 st0 hcfg hlive (by simp [hzero]) hvalid
  refine ⟨h1, ?_, ?_⟩
  · have h := commitCount_expectedSends rt (CHUNKS_PER_COMMIT e) lines 0
    simpa using h
  · have hrun : run rt e st0 (lines.map Event.line ++ [Event.rlClose])
        = onClose e (run rt e st0 (lines.map Event.line)) := by
      simp only [run, List.foldl_append, List.foldl_cons, List.foldl_nil]
      simp only [run] at h4
      simp [step, h4]
    rw [hrun]
    simp only [Nat.zero_add] at h2
    unfold onClose
    rw [h2, hman]
    by_cases hc : lines.length % CHUNKS_PER_COMMIT e ≥ MIN_TAIL_CHUNKS e
    · simp [hc]
    · simp [hc]

/-- Witness for C3: fifty valid records, 20 ms chunks and 800 ms per commit. -/
theorem bridge_commit_count_witness :
    (run sampleRuntime e2eEnv configuredInit
        ((List.replicate 50 sampleAppend).map Event.line)).sent
        = configuredInit.sent ++
            expectedSends sampleRuntime (CHUNKS_PER_COMMIT e2eEnv) 0
              (List.replicate 50 sampleAppend) ∧
      commitCount (expectedSends sampleRuntime (CHUNKS_PER_COMMIT e2eEnv) 0
          (List.replicate 50 sampleAppend))
        = (List.replicate 50 sampleAppend).length / CHUNKS_PER_COMMIT e2eEnv ∧
      (run sampleRuntime e2eEnv configuredInit
          ((List.replicate 50 sampleAppend).map Event.line ++ [Event.rlClose])).sent
        = (run sampleRuntime e2eEnv configuredInit
            ((List.replicate 50 sampleAppend).map Event.line)).sent ++
            (if (List.replicate 50 sampleAppend).length % CHUNKS_PER_COMMIT e2eEnv
                ≥ MIN_TAIL_CHUNKS e2eEnv
              then [UpMsg.commit] else []) :=
  bridge_commit_count sampleRuntime e2eEnv configuredInit (List.replicate 50 sampleAppend)
    (by decide) (by decide) (by decide) (by decide)
    (by intro l hl; rw [List.eq_of_mem_replicate hl]; decide)

lemma CHUNKS_PER_COMMIT_e2e (e : Env) (hchunk : e.CHUNK_MS = some 20)
    (hmin : e.MIN_COMMIT_MS = some 800) : CHUNKS_PER_COMMIT e = 40 := by
  simp only [CHUNKS_PER_COMMIT, MIN_COMMIT_MS, CHUNK_MS, hchunk, hmin, Option.getD_some,
    mathCeilDiv]
  decide

lemma commitCount_append (a b : List UpMsg) :
    commitCount (a ++ b) = commitCount a + commitCount b := by
  simp [commitCount, List.count_append]

lemma silenceLine_valid : validAppend silenceRuntime silenceLine = true := by
  unfold validAppend
  simp only [silenceRuntime, if_true]
  rfl

lemma silenceAudio_flatten : silenceAudio.flatten = List.replicate 32000 0 := by
  unfold silenceAudio
  rw [List.flatten_cons, List.flatten_nil, List.append_nil]

/-- Counterexample for C4: one second of silence gives 50 Frames of 640 zero bytes;
their 50 records, fed to a configured Bridge in manual-commit mode with 20 ms chunks
and 800 ms per commit, cause 1 commit before stream end, not 2. -/
theorem e2e_two_midstream_commits_counterexample :
    Chunker.run (Chunker.CHUNK_BYTES 16000 20) silenceAudio
        = some (List.replicate 50 (List.replicate 640 0)) ∧
      CHUNKS_PER_COMMIT e2eEnv = 40 ∧
      commitCount (run silenceRuntime e2eEnv configuredInit
        (((List.replicate 50 (List.replicate 640 (0 : Chunker.Byte))).map
          (fun _ => silenceLine)).map Event.line)).sent = 1 ∧
      commitCount (run silenceRuntime e2eEnv configuredInit
        (((List.replicate 50 (List.replicate 640 (0 : Chunker.Byte))).map
          (fun _ => silenceLine)).map Event.line)).sent ≠ 2 := by
  have hK : CHUNKS_PER_COMMIT e2eEnv = 40 := CHUNKS_PER_COMMIT_e2e e2eEnv rfl rfl
  have hchunk : Chunker.run (Chunker.CHUNK_BYTES 16000 20) silenceAudio
      = some (List.replicate 50 (List.replicate 640 0)) := by
    have h640 : Chunker.CHUNK_BYTES 16000 20 = 640 := by decide
    obtain ⟨st, hinv, hrun⟩ := Chunker.run_spec 640 (by norm_num) silenceAudio
    rw [silenceAudio_flatten] at hinv
    rw [h640, hrun, Chunker.onEnd_replicate 640 50 (by norm_num) 0 st hinv]
  have hvalid : ∀ l ∈ (List.replicate 50 (List.replicate 640 (0 : Chunker.Byte))).map
      (fun _ => silenceLine), validAppend silenceRuntime l = true := by
    intro l hl
    obtain ⟨_, _, rfl⟩ := List.mem_map.mp hl
    exact silenceLine_valid
  obtain ⟨h1, _⟩ := run_lines silenceRuntime e2eEnv rfl _ 0 configuredInit rfl rfl
    (by simp [configuredInit, init]) hvalid
  have hcount := commitCount_expectedSends silenceRuntime (CHUNKS_PER_COMMIT e2eEnv)
    ((List.replicate 50 (List.replicate 640 (0 : Chunker.Byte))).map (fun _ => silenceLine)) 0
  have hone : commitCount (run silenceRuntime e2eEnv configuredInit
      (((List.replicate 50 (List.replicate 640 (0 : Chunker.Byte))).map
        (fun _ => silenceLine)).map Event.line)).sent = 1 := by
    rw [h1, commitCount_append, hK]
    rw [hK] at hcount
    simp only [List.length_map, List.length_replicate, Nat.zero_div, Nat.add_zero,
      Nat.zero_add] at hcount
    rw [hcount]
    simp [configuredInit, init, commitCount]
  exact ⟨hchunk, hK, hone, by rw [hone]; decide⟩

/-- C4, amended. End-to-end commit scenario: one second of 16 kHz audio (32000
bytes, in any split) gives 50 Frames of 640 bytes; their records, fed to a configured
Bridge in manual-commit mode with 20 ms chunks and 800 ms per commit (40 frames per
commit), are all forwarded with exactly 1 commit before stream end, placed by the
commit rule (after the 40th frame), and 10 frames are left counted at stream end. -/
theorem e2e_one_midstream_commit (rt : Runtime) (e : Env)
    (encode : Chunker.Buffer → String) (audio : List Chunker.Buffer) (st0 : State)
    (hman : FORCE_MANUAL e = true) (hchunk : e.CHUNK_MS = some 20)
    (hmin : e.MIN_COMMIT_MS = some 800)
    (henc : ∀ b : Chunker.Buffer, b ≠ [] → validAppend rt (encode b) = true)
    (hlen : audio.flatten.length = 32000)
    (hcfg : st0.configured = true) (hlive : st0.crashed = false)
    (hzero : st0.chunksSinceCommit = 0) :
    ∃ frames, Chunker.run (Chunker.CHUNK_BYTES 16000 20) audio = some frames ∧
      frames.length = 50 ∧ (∀ f ∈ frames, f.length = 640) ∧
      (run rt e st0 ((frames.map encode).map Event.line)).sent
        = st0.sent ++ expectedSends rt 40 0 (frames.map encode) ∧
      commitCount (expectedSends rt 40 0 (frames.map encode)) = 1 ∧
      (run rt e st0 ((frames.map encode).map Event.line)).chunksSinceCommit = 10 := by
  have hK : CHUNKS_PER_COMMIT e = 40 := CHUNKS_PER_COMMIT_e2e e hchunk hmin
  have h640 : Chunker.CHUNK_BYTES 16000 20 = 640 := by decide
  obtain ⟨st, hinv, hrun⟩ := Chunker.run_spec 640 (by norm_num) audio
  obtain ⟨hend, hk, hall⟩ :=
    Chunker.onEnd_of_multiple 640 50 (by norm_num) _ st hinv (by rw [hlen])
  have hvalid : ∀ l ∈ (Chunker.onEnd st).map encode, validAppend rt l = true := by
    intro l hl
    obtain ⟨f, hf, rfl⟩ := List.mem_map.mp hl
    apply henc
    rw [hend] at hf
    intro hnil
    have := hall f hf
    rw [hnil] at this
    simp at this
  obtain ⟨h1, h2, _⟩ := run_lines rt e hman ((Chunker.onEnd st).map encode) 0 st0 hcfg hlive
    (by simp [hzero]) hvalid
  have hcount := commitCount_expectedSends rt 40 ((Chunker.onEnd st).map encode) 0
  have hlen50 : ((Chunker.onEnd st).map encode).length = 50 := by
    rw [List.length_map, hend, hk]
  rw [hK] at h1 h2
  rw [hlen50] at h2 hcount
  refine ⟨Chunker.onEnd st, by rw [h640, hrun], by rw [hend, hk],
    by rw [hend]; exact hall, h1, ?_, ?_⟩
  · simpa using hcount
  · rw [h2]

/-- Witness for C4, amended: the silence stream and its record. -/
theorem e2e_one_midstream_commit_witness :
    ∃ frames, Chunker.run (Chunker.CHUNK_BYTES 16000 20) silenceAudio = some frames ∧
      frames.length = 50 ∧ (∀ f ∈ frames, f.length = 640) ∧
      (run silenceRuntime e2eEnv configuredInit
          ((frames.map (fun _ => silenceLine)).map Event.line)).sent
        = configuredInit.sent ++
            expectedSends silenceRuntime 40 0 (frames.map (fun _ => silenceLine)) ∧
      commitCount (expectedSends silenceRuntime 40 0 (frames.map (fun _ => silenceLine))) = 1 ∧
      (run silenceRuntime e2eEnv configuredInit
          ((frames.map (fun _ => silenceLine)).map Event.line)).chunksSinceCommit = 10 :=
  e2e_one_midstream_commit silenceRuntime e2eEnv (fun _ => silenceLine) silenceAudio
    configuredInit rfl rfl rfl (fun _ _ => silenceLine_valid)
    (by rw [silenceAudio_flatten, List.length_replicate]) rfl rfl rfl

lemma MIN_TAIL_CHUNKS_eq_ceil (e : Env) :
    (MIN_TAIL_CHUNKS e : Int) = max 1 ⌈(TAIL_COMMIT_MS e : ℚ) / (CHUNK_MS e : ℚ)⌉ := by
  have hpos : (0 : Int) < CHUNK_MS e := lt_of_lt_of_le Int.zero_lt_one (CHUNK_MS_pos e)
  rw [← mathCeilDiv_eq_ceil _ _ hpos]
  unfold MIN_TAIL_CHUNKS
  have h : (1 : Int) ≤ max 1 (mathCeilDiv (TAIL_COMMIT_MS e) (CHUNK_MS e)) := le_max_left _ _
  omega

/-- Counterexample for C5: with `TAIL_COMMIT_MS=0` and 20 ms chunks the claimed
threshold `ceil(0 / 20)` is 0, which a counter of 0 reaches, yet stream end on a
configured Bridge in manual-commit mode sends nothing. -/
theorem stream_end_rule_counterexample :
    FORCE_MANUAL tailZeroEnv = true ∧
      (configuredInit.chunksSinceCommit : Int)
        ≥ ⌈(TAIL_COMMIT_MS tailZeroEnv : ℚ) / (CHUNK_MS tailZeroEnv : ℚ)⌉ ∧
      (run sampleRuntime tailZeroEnv configuredInit [Event.rlClose]).sent
        = configuredInit.sent := by
  refine ⟨rfl, ?_, by decide⟩
  rw [← mathCeilDiv_eq_ceil _ _ (by decide)]
  decide

/-- C5, amended. Stream-end rule: in manual-commit mode, for every configuration
whose duration settings are integers of magnitude below `2 ^ 53` and every value `c`
of the frames-since-last-commit counter at stream end, the Bridge sends one final
commit if `c ≥ max(1, ceil(TAIL_COMMIT_MS / CHUNK_MS))` and sends nothing otherwise;
here `CHUNK_MS ≥ 1` and `TAIL_COMMIT_MS ≥ 0`. -/
theorem stream_end_rule (e : Env) (st : State) (hman : FORCE_MANUAL e = true)
    (hint : integerSettings e = true) :
    1 ≤ CHUNK_MS e ∧ CHUNK_MS e < 2 ^ 53 ∧
      0 ≤ TAIL_COMMIT_MS e ∧ TAIL_COMMIT_MS e < 2 ^ 53 ∧
      ((st.chunksSinceCommit : Int)
          ≥ max 1 ⌈(TAIL_COMMIT_MS e : ℚ) / (CHUNK_MS e : ℚ)⌉ →
        (onClose e st).sent = st.sent ++ [UpMsg.commit]) ∧
      (¬ (st.chunksSinceCommit : Int)
          ≥ max 1 ⌈(TAIL_COMMIT_MS e : ℚ) / (CHUNK_MS e : ℚ)⌉ →
        (onClose e st).sent = st.sent) := by
  have hrange : CHUNK_MS e < 2 ^ 53 ∧ TAIL_COMMIT_MS e < 2 ^ 53 := by
    simp only [integerSettings, Bool.and_eq_true] at hint
    obtain ⟨⟨hc, _⟩, ht⟩ := hint
    constructor
    · unfold CHUNK_MS
      cases hv : e.CHUNK_MS with
      | none => decide
      | some v =>
        rw [hv] at hc
        simp only [exactSetting, decide_eq_true_eq] at hc
        simp only [Option.getD_some]
        exact max_lt (by norm_num) hc.2
    · unfold TAIL_COMMIT_MS
      cases hv : e.TAIL_COMMIT_MS with
      | none => decide
      | some v =>
        rw [hv] at ht
        simp only [exactSetting, decide_eq_true_eq] at ht
        simp only [Option.getD_some]
        exact max_lt (by norm_num) ht.2
  refine ⟨CHUNK_MS_pos e, hrange.1, TAIL_COMMIT_MS_nonneg e, hrange.2, ?_, ?_⟩
  · intro h
    rw [← MIN_TAIL_CHUNKS_eq_ceil] at h
    have h' : st.chunksSinceCommit ≥ MIN_TAIL_CHUNKS e := by exact_mod_cast h
    simp [onClose, hman, h']
  · intro h
    rw [← MIN_TAIL_CHUNKS_eq_ceil] at h
    have h' : ¬ st.chunksSinceCommit ≥ MIN_TAIL_CHUNKS e := by
      intro hc; exact h (by exact_mod_cast hc)
    simp only [onClose, hman, Bool.true_and]
    simp [h']

/-- Witness for C5, amended: the default tail (120 ms, threshold 6) at counter 10. -/
theorem stream_end_rule_witness :
    FORCE_MANUAL e2eEnv = true ∧ 1 ≤ CHUNK_MS e2eEnv ∧ CHUNK_MS e2eEnv < 2 ^ 53 ∧
      0 ≤ TAIL_COMMIT_MS e2eEnv ∧ TAIL_COMMIT_MS e2eEnv < 2 ^ 53 ∧
      (((({ configuredInit with chunksSinceCommit := 10 } : State).chunksSinceCommit : Nat)
            : Int)
          ≥ max 1 ⌈(TAIL_COMMIT_MS e2eEnv : ℚ) / (CHUNK_MS e2eEnv : ℚ)⌉ →
        (onClose e2eEnv { configuredInit with chunksSinceCommit := 10 }).sent
          = ({ configuredInit with chunksSinceCommit := 10 } : State).sent ++ [UpMsg.commit]) ∧
      (¬ ((({ configuredInit with chunksSinceCommit := 10 } : State).chunksSinceCommit : Nat)
            : Int)
          ≥ max 1 ⌈(TAIL_COMMIT_MS e2eEnv : ℚ) / (CHUNK_MS e2eEnv : ℚ)⌉ →
        (onClose e2eEnv { configuredInit with chunksSinceCommit := 10 }).sent
          = ({ configuredInit with chunksSinceCommit := 10 } : State).sent) :=
  ⟨rfl, stream_end_rule e2eEnv { configuredInit with chunksSinceCommit := 10 } rfl
    (by decide)⟩

/-- The `'message'` handler sends nothing upstream and leaves the counter alone. -/
lemma onMessage_sent (rt : Runtime) (e : Env) (st : State) (raw : String) :
    (onMessage rt e st raw).sent = st.sent ∧
      (onMessage rt e st raw).chunksSinceCommit = st.chunksSinceCommit := by
  unfold onMessage
  cases hp : rt.parse raw with
  | none => exact ⟨rfl, rfl⟩
  | some evt =>
    cases evt <;> simp only [] <;> (try split_ifs) <;> first | exact ⟨rfl, rfl⟩ | simp

/-- Only the acknowledgment sets `configured`. -/
lemma onMessage_configured (rt : Runtime) (e : Env) (st : State) (raw : String)
    (hack : isAck rt raw = false) :
    (onMessage rt e st raw).configured = st.configured := by
  unfold isAck at hack
  unfold onMessage
  cases hp : rt.parse raw with
  | none => rfl
  | some evt =>
    rw [hp] at hack
    simp only at hack
    cases evt <;> simp only [hack, Bool.false_eq_true, if_false] <;> (try split_ifs) <;> rfl

/-- What holds of the Bridge until the acknowledgment arrives. -/
lemma step_before_ack (rt : Runtime) (e : Env) (st : State) (ev : Event)
    (hcfg : st.configured = false) (hzero : st.chunksSinceCommit = 0)
    (hsent : ∀ m ∈ st.sent, ∃ b, m = UpMsg.sessionUpdate b)
    (hev : ∀ raw, ev = Event.wsMessage raw → isAck rt raw = false) :
    (step rt e st ev).configured = false ∧ (step rt e st ev).chunksSinceCommit = 0 ∧
      (∀ m ∈ (step rt e st ev).sent, ∃ b, m = UpMsg.sessionUpdate b) ∧
      (ev.isLine = true → step rt e st ev = st) := by
  by_cases hcr : st.crashed = true
  · have hs : step rt e st ev = st := by simp [step, hcr]
    rw [hs]
    exact ⟨hcfg, hzero, hsent, fun _ => rfl⟩
  · cases ev with
    | wsOpen =>
      have hs : step rt e st Event.wsOpen = onOpen e st := by simp [step, hcr]
      rw [hs]
      refine ⟨hcfg, hzero, ?_, by intro h; cases h⟩
      intro m hm
      simp only [onOpen, List.mem_append, List.mem_singleton] at hm
      rcases hm with h | h
      · exact hsent m h
      · exact ⟨_, h⟩
    | wsMessage raw =>
      have hs : step rt e st (Event.wsMessage raw) = onMessage rt e st raw := by
        simp [step, hcr]
      obtain ⟨h1, h2⟩ := onMessage_sent rt e st raw
      have h3 := onMessage_configured rt e st raw (hev raw rfl)
      rw [hs, h1, h2, h3]
      exact ⟨hcfg, hzero, hsent, by intro h; cases h⟩
    | line text =>
      have hs : step rt e st (Event.line text) = st := by simp [step, hcr, onLine, hcfg]
      rw [hs]
      exact ⟨hcfg, hzero, hsent, fun _ => rfl⟩
    | rlClose =>
      have hT := MIN_TAIL_CHUNKS_pos e
      have hno : ¬ st.chunksSinceCommit ≥ MIN_TAIL_CHUNKS e := by omega
      have hs : step rt e st Event.rlClose = { st with wsClosed := true } := by
        simp [step, hcr, onClose, hno]
      rw [hs]
      exact ⟨hcfg, hzero, hsent, by intro h; cases h⟩

lemma run_before_ack (rt : Runtime) (e : Env) :
    ∀ (pre : List Event) (st : State),
      st.configured = false → st.chunksSinceCommit = 0 →
      (∀ m ∈ st.sent, ∃ b, m = UpMsg.sessionUpdate b) →
      (∀ raw, Event.wsMessage raw ∈ pre → isAck rt raw = false) →
      (run rt e st pre).configured = false ∧ (run rt e st pre).chunksSinceCommit = 0 ∧
        (∀ m ∈ (run rt e st pre).sent, ∃ b, m = UpMsg.sessionUpdate b) ∧
        run rt e st pre = run rt e st (pre.filter (fun ev => !ev.isLine)) := by
  intro pre
  induction pre with
  | nil => intro st h1 h2 h3 _; exact ⟨h1, h2, h3, rfl⟩
  | cons ev evs ih =>
    intro st h1 h2 h3 h4
    obtain ⟨s1, s2, s3, s4⟩ := step_before_ack rt e st ev h1 h2 h3
      (fun raw hr => h4 raw (by rw [hr]; exact List.mem_cons_self _ _))
    obtain ⟨r1, r2, r3, r4⟩ := ih (step rt e st ev) s1 s2 s3
      (fun raw hr => h4 raw (List.mem_cons_of_mem _ hr))
    have hrun : run rt e st (ev :: evs) = run rt e (step rt e st ev) evs := rfl
    rw [hrun]
    refine ⟨r1, r2, r3, ?_⟩
    rw [r4]
    by_cases hl : ev.isLine = true
    · rw [s4 hl]
      simp [List.filter_cons, hl]
    · simp [List.filter_cons, hl, run]

/-- C6. No audio before acknowledgment: an input line handled while the Bridge is
not configured leaves the whole state as it was (nothing sent, counter unchanged,
nothing kept for later); hence for every sequence `pre` of events from start that
holds no acknowledgment, every message sent is the session configuration (no append,
no commit), the counter is 0, and whatever follows runs exactly as if the lines of
`pre` had never arrived. -/
theorem no_audio_before_ack (rt : Runtime) (e : Env) (pre post : List Event)
    (hpre : ∀ raw, Event.wsMessage raw ∈ pre → isAck rt raw = false) :
    (∀ (st : State) (line : String), st.configured = false → onLine rt e st line = st) ∧
      (∀ m ∈ (run rt e init pre).sent, m ≠ UpMsg.commit ∧ ∀ l, m ≠ UpMsg.forward l) ∧
      (run rt e init pre).chunksSinceCommit = 0 ∧
      (run rt e init pre).configured = false ∧
      run rt e init (pre ++ post)
        = run rt e init (pre.filter (fun ev => !ev.isLine) ++ post) := by
  obtain ⟨r1, r2, r3, r4⟩ := run_before_ack rt e pre init rfl rfl
    (by intro m hm; cases hm) hpre
  refine ⟨?_, ?_, r2, r1, ?_⟩
  · intro st line hcfg
    simp [onLine, hcfg]
  · intro m hm
    obtain ⟨b, rfl⟩ := r3 m hm
    exact ⟨(by intro h; cases h), (by intro l h; cases h)⟩
  · simp only [run, List.foldl_append]
    simp only [run] at r4
    rw [r4]

/-- Witness for C6: two lines arrive before the acknowledgment, one after it. -/
theorem no_audio_before_ack_witness :
    (∀ (st : State) (line : String), st.configured = false →
        onLine sampleRuntime e2eEnv st line = st) ∧
      (∀ m ∈ (run sampleRuntime e2eEnv init
            [Event.wsOpen, Event.line sampleAppend, Event.wsMessage sampleOther,
              Event.line sampleAppend]).sent,
          m ≠ UpMsg.commit ∧ ∀ l, m ≠ UpMsg.forward l) ∧
      (run sampleRuntime e2eEnv init
          [Event.wsOpen, Event.line sampleAppend, Event.wsMessage sampleOther,
            Event.line sampleAppend]).chunksSinceCommit = 0 ∧
      (run sampleRuntime e2eEnv init
          [Event.wsOpen, Event.line sampleAppend, Event.wsMessage sampleOther,
            Event.line sampleAppend]).configured = false ∧
      run sampleRuntime e2eEnv init
          ([Event.wsOpen, Event.line sampleAppend, Event.wsMessage sampleOther,
              Event.line sampleAppend] ++
            [Event.wsMessage sampleAck, Event.line sampleAppend])
        = run sampleRuntime e2eEnv init
            ([Event.wsOpen, Event.line sampleAppend, Event.wsMessage sampleOther,
                Event.line sampleAppend].filter (fun ev => !ev.isLine) ++
              [Event.wsMessage sampleAck, Event.line sampleAppend]) :=
  no_audio_before_ack sampleRuntime e2eEnv
    [Event.wsOpen, Event.line sampleAppend, Event.wsMessage sampleOther,
      Event.line sampleAppend]
    [Event.wsMessage sampleAck, Event.line sampleAppend]
    (by
      intro raw h
      simp at h
      rw [h]
      decide)

/-- What the `'message'` handler writes, with pass-through off. -/
lemma onMessage_stdout_filter (rt : Runtime) (e : Env) (st : State) (raw : String)
    (hoff : e.FORWARD_ALL = false) :
    (onMessage rt e st raw).stdout = st.stdout ++
      (match rt.parse raw with
        | some evt =>
          if strictEqStr (evt.get "type") T_DELTA || strictEqStr (evt.get "type") T_COMPLETED
          then [raw ++ "\n"] else []
        | none => []) := by
  unfold onMessage
  cases hp : rt.parse raw with
  | none => simp
  | some evt =>
    have hne1 : T_DELTA ≠ T_UPDATED := by decide
    have hne2 : T_COMPLETED ≠ T_UPDATED := by decide
    cases hd : (strictEqStr (evt.get "type") T_DELTA ||
        strictEqStr (evt.get "type") T_COMPLETED) with
    | false =>
      cases evt <;> simp only [hoff, hd, Bool.false_eq_true, if_false, List.append_nil] <;>
        (try split_ifs) <;> rfl
    | true =>
      have hu : strictEqStr (evt.get "type") T_UPDATED = false := by
        cases hu : strictEqStr (evt.get "type") T_UPDATED with
        | false => rfl
        | true =>
          have hx := (strictEqStr_iff _ _).mp hu
          rcases Bool.or_eq_true_iff.mp hd with h | h
          · have hy := (strictEqStr_iff _ _).mp h
            rw [hx] at hy
            injection hy with hy
            injection hy with hy
            exact absurd hy.symm hne1
          · have hy := (strictEqStr_iff _ _).mp h
            rw [hx] at hy
            injection hy with hy
            injection hy with hy
            exact absurd hy.symm hne2
      cases evt <;>
        first
        | (simp only [hoff, hd, hu, Bool.false_eq_true, if_false, if_true]; done)
        | (simp [Json.get, strictEqStr] at hd)

/-- C7. Event republishing filter: with pass-through off, the `'message'` handler
writes `raw` followed by one newline, and nothing else, when the message parses as
JSON and its `type` is exactly the delta tag or the completed tag; for every other
message it writes nothing. -/
theorem republish_filter (rt : Runtime) (e : Env) (st : State) (raw : String)
    (hoff : e.FORWARD_ALL = false) :
    ((∃ evt, rt.parse raw = some evt ∧
          (evt.get "type" = some (Json.str T_DELTA) ∨
            evt.get "type" = some (Json.str T_COMPLETED))) →
        (onMessage rt e st raw).stdout = st.stdout ++ [raw ++ "\n"]) ∧
      (¬ (∃ evt, rt.parse raw = some evt ∧
          (evt.get "type" = some (Json.str T_DELTA) ∨
            evt.get "type" = some (Json.str T_COMPLETED))) →
        (onMessage rt e st raw).stdout = st.stdout) := by
  rw [onMessage_stdout_filter rt e st raw hoff]
  constructor
  · rintro ⟨evt, hp, ht⟩
    rw [hp]
    have : (strictEqStr (evt.get "type") T_DELTA ||
        strictEqStr (evt.get "type") T_COMPLETED) = true := by
      rcases ht with h | h
      · rw [(strictEqStr_iff _ _).mpr h]; rfl
      · rw [(strictEqStr_iff _ _).mpr h]; exact Bool.or_true _
    simp only [this, if_true]
  · intro hno
    cases hp : rt.parse raw with
    | none => simp
    | some evt =>
      have : (strictEqStr (evt.get "type") T_DELTA ||
          strictEqStr (evt.get "type") T_COMPLETED) = false := by
        cases hb : (strictEqStr (evt.get "type") T_DELTA ||
            strictEqStr (evt.get "type") T_COMPLETED) with
        | false => rfl
        | true =>
          rcases Bool.or_eq_true_iff.mp hb with h | h
          · exact (hno ⟨evt, hp, Or.inl ((strictEqStr_iff _ _).mp h)⟩).elim
          · exact (hno ⟨evt, hp, Or.inr ((strictEqStr_iff _ _).mp h)⟩).elim
      simp [this]

/-- Witness for C7: a delta event is republished with a newline appended. -/
theorem republish_filter_witness :
    e2eEnv.FORWARD_ALL = false ∧
      (onMessage sampleRuntime e2eEnv init sampleDelta).stdout = [sampleDelta ++ "\n"] ∧
      (onMessage sampleRuntime e2eEnv init sampleOther).stdout = [] :=
  ⟨rfl,
    (republish_filter sampleRuntime e2eEnv init sampleDelta rfl).1
      ⟨_, (rfl : sampleRuntime.parse sampleDelta
          = some (.obj [("type", .str T_DELTA), ("delta", .str "Hi")])),
        Or.inl rfl⟩,
    (republish_filter sampleRuntime e2eEnv init sampleOther rfl).2 (by
      rintro ⟨evt, hp, ht⟩
      have hp' : sampleRuntime.parse sampleOther
          = some (.obj [("type", .str "input_audio_buffer.committed")]) := rfl
      rw [hp'] at hp
      cases hp
      rcases ht with h | h <;> simp [Json.get, List.lookup, T_DELTA, T_COMPLETED] at h)⟩

/-- Counterexample for C8: with `FORWARD_ALL=1` the acknowledgment is an upstream
message that parses, and nothing is written for it; the same for a text that is
not JSON. -/
theorem pass_through_counterexample :
    forwardAllEnv.FORWARD_ALL = true ∧
      (run sampleRuntime forwardAllEnv init [Event.wsMessage sampleAck]).stdout = [] ∧
      (run sampleRuntime forwardAllEnv init [Event.wsMessage "not json"]).stdout = [] := by
  decide

/-- C8, amended. Pass-through mode: with `FORWARD_ALL` on, every upstream message
that parses as a JSON value other than `null` and whose `type` is not
`transcription_session.updated` is written downstream verbatim, its raw text followed
by one newline; a message that does not parse, or the acknowledgment, writes nothing. -/
theorem pass_through (rt : Runtime) (e : Env) (st : State) (raw : String)
    (hon : e.FORWARD_ALL = true) :
    (∀ evt, rt.parse raw = some evt → evt ≠ Json.null →
        evt.get "type" ≠ some (Json.str T_UPDATED) →
        (onMessage rt e st raw).stdout = st.stdout ++ [raw ++ "\n"]) ∧
      (rt.parse raw = none → (onMessage rt e st raw).stdout = st.stdout) ∧
      (isAck rt raw = true → (onMessage rt e st raw).stdout = st.stdout) := by
  refine ⟨?_, ?_, ?_⟩
  · intro evt hp hnull hty
    have hu : strictEqStr (evt.get "type") T_UPDATED = false := by
      by_contra hcon
      have : strictEqStr (evt.get "type") T_UPDATED = true := by simpa using hcon
      exact hty ((strictEqStr_iff _ _).mp this)
    unfold onMessage
    rw [hp]
    cases evt <;> first | exact absurd rfl hnull | simp [hu, hon]
  · intro hp
    unfold onMessage
    rw [hp]
  · intro hack
    unfold isAck at hack
    unfold onMessage
    cases hp : rt.parse raw with
    | none => rfl
    | some evt =>
      rw [hp] at hack
      simp only at hack
      cases evt <;> simp [hack]

/-- Witness for C8, amended: a delta event in pass-through mode. -/
theorem pass_through_witness :
    forwardAllEnv.FORWARD_ALL = true ∧
      (onMessage sampleRuntime forwardAllEnv init sampleDelta).stdout
        = [sampleDelta ++ "\n"] :=
  ⟨rfl,
    (pass_through sampleRuntime forwardAllEnv init sampleDelta rfl).1
      (.obj [("type", .str T_DELTA), ("delta", .str "Hi")]) rfl
      (by intro h; cases h)
      (by
        intro h
        have h2 : Json.str T_DELTA = Json.str T_UPDATED := Option.some.inj h
        have h3 : T_DELTA = T_UPDATED := Json.str.inj h2
        exact absurd h3 (by decide))⟩

end Bridge

/-! ## Transcript Forwarder: proofs -/

namespace Forwarder

open JS

/-- The if-cascade of `needsSpace` as one condition on the tests of the program. -/
lemma needsSpace_cascade (prev next : Option Char) :
    (needsSpace prev next = true ↔
        ∃ p n, prev = some p ∧ next = some n ∧ isSpace p = false ∧ isAlphaNum n = true ∧
          (isSentenceEnd p = true ∨ isAlphaNum p = true ∨
            p = ')' ∨ p = Char.ofNat 0x22 ∨ p = Char.ofNat 0x27)) ∧
      (prev = none ∨ next = none → needsSpace prev next = false) ∧
      (∀ p, prev = some p → isSpace p = true → needsSpace prev next = false) := by
  refine ⟨?_, ?_, ?_⟩
  · cases prev with
    | none => simp [needsSpace]
    | some p =>
      cases next with
      | none => simp [needsSpace]
      | some n =>
        simp only [needsSpace, isCloser, Option.some.injEq, exists_and_left, exists_eq_left']
        cases hs : isSpace p <;> cases ha : isAlphaNum n <;> cases he : isSentenceEnd p <;>
          cases hp : isAlphaNum p <;> simp [or_assoc]
  · rintro (h | h) <;> subst h
    · simp [needsSpace]
    · cases prev <;> simp [needsSpace]
  · intro p hp hs
    subst hp
    cases next <;> simp [needsSpace, hs]

lemma char_le_iff (a b : Char) : a ≤ b ↔ a.toNat ≤ b.toNat := by
  rw [Char.le_def]
  exact Iff.rfl

lemma isAlphaNum_iff (c : Char) : isAlphaNum c = true ↔ Alphanumeric c := by
  unfold isAlphaNum Alphanumeric
  simp only [Bool.or_eq_true, Bool.and_eq_true, decide_eq_true_eq, char_le_iff]
  have hA : 'A'.toNat = 0x41 := rfl
  have hZ : 'Z'.toNat = 0x5A := rfl
  have ha : 'a'.toNat = 0x61 := rfl
  have hz : 'z'.toNat = 0x7A := rfl
  have h0 : '0'.toNat = 0x30 := rfl
  have h9 : '9'.toNat = 0x39 := rfl
  rw [hA, hZ, ha, hz, h0, h9]
  tauto

lemma isSpace_iff (c : Char) :
    isSpace c = true ↔ (c = ' ' ∨ c = '\t' ∨ c = '\n' ∨ c = '\r') := by
  simp [isSpace, or_assoc]

lemma isSentenceEnd_iff (c : Char) :
    isSentenceEnd c = true ↔ (c = '.' ∨ c = '!' ∨ c = '?') := by
  simp [isSentenceEnd, or_assoc]

/-- C9. Spacing rule: `needsSpace(prev, next)` is true exactly when both characters
are present, `prev` is not whitespace (blank, tab, line feed, carriage return),
`next` is alphanumeric, and `prev` is a sentence terminator (`.`, `!`, `?`), or
alphanumeric, or one of `)`, the double quote (U+0022), the single quote (U+0027); it
is false when either side is missing and when `prev` is whitespace.  Alphanumeric
is `A`..`Z`, `a`..`z`, `0`..`9` and U+0100..U+017E.  So a full stop, a letter or a
closing bracket before a letter asks for a space, while a blank, a line feed or a
comma before a letter, and a full stop before a blank, do not. -/
theorem needsSpace_iff (prev next : Option Char) :
    (needsSpace prev next = true ↔
        ∃ p n, prev = some p ∧ next = some n ∧
          ¬ (p = ' ' ∨ p = '\t' ∨ p = '\n' ∨ p = '\r') ∧ Alphanumeric n ∧
          (p = '.' ∨ p = '!' ∨ p = '?' ∨ Alphanumeric p ∨
            p = ')' ∨ p = Char.ofNat 0x22 ∨ p = Char.ofNat 0x27)) ∧
      (prev = none ∨ next = none → needsSpace prev next = false) ∧
      (∀ p, prev = some p → (p = ' ' ∨ p = '\t' ∨ p = '\n' ∨ p = '\r') →
        needsSpace prev next = false) ∧
      (needsSpace (some '.') (some 'W') = true ∧ needsSpace (some '!') (some 'a') = true ∧
        needsSpace (some '?') (some '7') = true ∧ needsSpace (some 'o') (some 'k') = true ∧
        needsSpace (some ')') (some 'x') = true ∧
        needsSpace (some (Char.ofNat 0x22)) (some 'x') = true ∧
        needsSpace (some (Char.ofNat 0x27)) (some 'x') = true ∧
        needsSpace (some 'a') (some (Char.ofNat 0x17E)) = true) ∧
      (needsSpace (some ' ') (some 'W') = false ∧ needsSpace (some '\n') (some 'W') = false ∧
        needsSpace (some ',') (some 'W') = false ∧ needsSpace (some '.') (some ' ') = false ∧
        needsSpace (some '.') (some '.') = false ∧ needsSpace none (some 'W') = false ∧
        needsSpace (some '.') none = false) := by
  obtain ⟨h1, h2, h3⟩ := needsSpace_cascade prev next
  refine ⟨?_, h2, ?_, by decide, by decide⟩
  · rw [h1]
    constructor
    · rintro ⟨p, n, hp, hn, hs, ha, hc⟩
      refine ⟨p, n, hp, hn, ?_, (isAlphaNum_iff n).mp ha, ?_⟩
      · intro hw
        have := (isSpace_iff p).mpr hw
        rw [hs] at this
        cases this
      · rcases hc with h | h | h | h | h
        · rcases (isSentenceEnd_iff p).mp h with h | h | h
          · exact Or.inl h
          · exact Or.inr (Or.inl h)
          · exact Or.inr (Or.inr (Or.inl h))
        · exact Or.inr (Or.inr (Or.inr (Or.inl ((isAlphaNum_iff p).mp h))))
        · exact Or.inr (Or.inr (Or.inr (Or.inr (Or.inl h))))
        · exact Or.inr (Or.inr (Or.inr (Or.inr (Or.inr (Or.inl h)))))
        · exact Or.inr (Or.inr (Or.inr (Or.inr (Or.inr (Or.inr h)))))
    · rintro ⟨p, n, hp, hn, hs, ha, hc⟩
      refine ⟨p, n, hp, hn, ?_, (isAlphaNum_iff n).mpr ha, ?_⟩
      · cases hsp : isSpace p with
        | false => rfl
        | true => exact absurd ((isSpace_iff p).mp hsp) hs
      · rcases hc with h | h | h | h | h | h | h
        · exact Or.inl ((isSentenceEnd_iff p).mpr (Or.inl h))
        · exact Or.inl ((isSentenceEnd_iff p).mpr (Or.inr (Or.inl h)))
        · exact Or.inl ((isSentenceEnd_iff p).mpr (Or.inr (Or.inr h)))
        · exact Or.inr (Or.inl ((isAlphaNum_iff p).mpr h))
        · exact Or.inr (Or.inr (Or.inl h))
        · exact Or.inr (Or.inr (Or.inr (Or.inl h)))
        · exact Or.inr (Or.inr (Or.inr (Or.inr h)))
  · intro p hp hw
    exact h3 p hp ((isSpace_iff p).mpr hw)

lemma not_delta_and_completed (x : Option Json) (h : strictEqStr x T_COMPLETED = true) :
    strictEqStr x T_DELTA = false := by
  rw [(strictEqStr_iff _ _).mp h]
  simp only [strictEqStr, beq_eq_false_iff_ne]
  decide

/-- With nothing but a line feed before it, a fragment is returned as it is. -/
lemma stitch_after_newline (e : Env) (d : String) : (stitch e '\n' d).1 = d := by
  unfold stitch
  by_cases h : e.SMART_SPACING = true
  · have hn : needsSpace (some '\n') d.data.head? = false := by
      cases d.data.head? <;> simp [needsSpace, isSpace]
    simp only [h, Bool.not_true, Bool.false_eq_true, if_false, hn]
    show "" ++ d = d
    apply String.ext
    simp
  · simp [h]

/-- With stitching off, a fragment is returned as it is. -/
lemma stitch_off (e : Env) (last : Char) (d : String) (h : e.SMART_SPACING = false) :
    (stitch e last d).1 = d := by
  simp [stitch, h]

/-- A completed event that is not filtered out resets `lastOutChar`. -/
lemma handleLine_completed (rt : Runtime) (e : Env) (last : Char) (line : String) (now : Nat)
    (hc : isCompletedLine rt line = true) (hmode : e.OUTPUT_MODE ≠ "delta") :
    (handleLine rt e last line now).lastOutChar = '\n' := by
  unfold isCompletedLine at hc
  simp only [Bool.and_eq_true, Bool.not_eq_true', decide_eq_false_iff_not] at hc
  obtain ⟨htrim, hty⟩ := hc
  unfold handleLine
  cases hp : rt.parse (rt.trim line) with
  | none => rw [hp] at hty; cases hty
  | some evt =>
    rw [hp] at hty
    simp only at hty
    have hnd := not_delta_and_completed _ hty
    cases evt <;>
      first
      | (simp [Json.get, strictEqStr] at hty; done)
      | simp [htrim, hty, hnd, hmode]

/-- A line that is not a delta event sets `lastOutChar` to a line feed or leaves it. -/
lemma handleLine_not_delta (rt : Runtime) (e : Env) (last : Char) (line : String) (now : Nat)
    (hnd : isDeltaLine rt line = false) :
    (handleLine rt e last line now).lastOutChar = last ∨
      (handleLine rt e last line now).lastOutChar = '\n' := by
  unfold isDeltaLine at hnd
  unfold handleLine
  by_cases htrim : rt.trim line = ""
  · simp [htrim]
  · simp only [htrim, decide_False, Bool.not_false, Bool.true_and] at hnd
    simp only [htrim, if_false]
    cases hp : rt.parse (rt.trim line) with
    | none => simp
    | some evt =>
      rw [hp] at hnd
      simp only at hnd
      cases evt <;> simp only [hnd, Bool.false_eq_true, if_false] <;>
        (try split_ifs) <;> simp

lemma onLine_lastOutChar (rt : Runtime) (e : Env) (st : State) (ev : LineEvent) :
    (onLine rt e st ev).lastOutChar = st.lastOutChar ∨
      ((onLine rt e st ev).lastOutChar
          = (handleLine rt e st.lastOutChar ev.line ev.now).lastOutChar ∧
        st.crashed = false) := by
  unfold onLine
  by_cases hcr : st.crashed = true
  · simp [hcr]
  · by_cases hth : (handleLine rt e st.lastOutChar ev.line ev.now).threw = true
    · simp [hcr, hth]
    · simp [hcr, hth]

lemma onLine_crashed (rt : Runtime) (e : Env) (st : State) (ev : LineEvent)
    (h : st.crashed = true) : onLine rt e st ev = st := by
  simp [onLine, h]

lemma runLines_crashed (rt : Runtime) (e : Env) :
    ∀ (evs : List LineEvent) (st : State), st.crashed = true → runLines rt e st evs = st := by
  intro evs
  induction evs with
  | nil => intro st _; rfl
  | cons ev evs ih =>
    intro st h
    show runLines rt e (onLine rt e st ev) evs = st
    rw [onLine_crashed rt e st ev h]
    exact ih st h

/-- Lines that are not delta events keep a line feed in `lastOutChar`. -/
lemma runLines_keeps_newline (rt : Runtime) (e : Env) :
    ∀ (mid : List LineEvent) (st : State), st.lastOutChar = '\n' →
      (∀ m ∈ mid, isDeltaLine rt m.line = false) →
      (runLines rt e st mid).lastOutChar = '\n' := by
  intro mid
  induction mid with
  | nil => intro st h _; exact h
  | cons ev evs ih =>
    intro st h hmid
    show (runLines rt e (onLine rt e st ev) evs).lastOutChar = '\n'
    apply ih
    · rcases onLine_lastOutChar rt e st ev with h1 | ⟨h1, _⟩
      · rw [h1]; exact h
      · rw [h1]
        rcases handleLine_not_delta rt e st.lastOutChar ev.line ev.now
          (hmid ev (List.mem_cons_self _ _)) with h2 | h2
        · rw [h2]; exact h
        · exact h2
    · exact fun m hm => hmid m (List.mem_cons_of_mem _ hm)

/-- What the handler hands to `outSend` for a delta event. -/
lemma handleLine_delta (rt : Runtime) (e : Env) (last : Char) (line : String) (now : Nat)
    (hd : isDeltaLine rt line = true) :
    (handleLine rt e last line now).threw = false ∧
      (e.OUTPUT_MODE = "completed" → (handleLine rt e last line now).emit = none) ∧
      (e.OUTPUT_MODE ≠ "completed" →
        ∃ msg, (handleLine rt e last line now).emit = some msg ∧ msg.type = "delta" ∧
          msg.text = (match deltaOf rt line with
            | some d => (stitch e last d).1
            | none => "")) := by
  unfold isDeltaLine at hd
  simp only [Bool.and_eq_true, Bool.not_eq_true', decide_eq_false_iff_not] at hd
  obtain ⟨htrim, hty⟩ := hd
  unfold handleLine deltaOf
  cases hp : rt.parse (rt.trim line) with
  | none => rw [hp] at hty; cases hty
  | some evt =>
    rw [hp] at hty
    simp only at hty
    cases evt with
    | obj kvs =>
      simp only [htrim, hty, if_true, if_false]
      refine ⟨?_, ?_, ?_⟩
      · split_ifs <;> rfl
      · intro hm; simp [hm]
      · intro hm
        simp only [hm, if_false]
        refine ⟨_, rfl, rfl, ?_⟩
        simp only
        cases hdl : (Json.obj kvs).get "delta" with
        | none => rfl
        | some v => cases v <;> rfl
    | null => simp [Json.get, strictEqStr] at hty
    | bool b => simp [Json.get, strictEqStr] at hty
    | num n => simp [Json.get, strictEqStr] at hty
    | str t => simp [Json.get, strictEqStr] at hty
    | arr xs => simp [Json.get, strictEqStr] at hty

/-- Counterexample for C10: stitching on, `OUTPUT_MODE=delta`.  The delta `Hello.`,
then a completed event, then the delta `World`: the completed event is skipped before
the reset, and the delta after it goes out as ` World`, with a space derived from the
full stop emitted before the completed event. -/
theorem utterance_reset_counterexample :
    isCompletedLine sampleRuntime lineDone = true ∧
      deltaOf sampleRuntime lineWorld = some "World" ∧
      (runLines sampleRuntime deltaOnlyEnv init
          [⟨lineHello, 0, true⟩, ⟨lineDone, 1, true⟩, ⟨lineWorld, 2, true⟩]).outQueue.map
        (fun m => m.text) = ["Hello.", " World"] := by
  decide

/-- C10, amended. Utterance boundary reset: for every configuration other than
stitching on together with output mode `delta`, and every sequence of lines, the
first delta event handled after a completed event is handed to `outSend` with its
text unchanged (the `delta` string of the event, or the empty text when there is
none) and is then delivered or queued; in output mode `completed` it is not emitted
at all. -/
theorem utterance_reset (rt : Runtime) (e : Env) (st : State) (c : LineEvent)
    (mid : List LineEvent) (d : LineEvent)
    (hcfg : e.SMART_SPACING = false ∨ e.OUTPUT_MODE ≠ "delta")
    (hc : isCompletedLine rt c.line = true)
    (hmid : ∀ m ∈ mid, isDeltaLine rt m.line = false)
    (hd : isDeltaLine rt d.line = true)
    (hlive : (runLines rt e st (c :: mid)).crashed = false) :
    (e.OUTPUT_MODE = "completed" →
        (handleLine rt e (runLines rt e st (c :: mid)).lastOutChar d.line d.now).emit = none) ∧
      (e.OUTPUT_MODE ≠ "completed" →
        ∃ msg,
          (handleLine rt e (runLines rt e st (c :: mid)).lastOutChar d.line d.now).emit
            = some msg ∧
          msg.type = "delta" ∧ msg.text = (deltaOf rt d.line).getD "" ∧
          ((runLines rt e st (c :: mid ++ [d])).delivered
              = (runLines rt e st (c :: mid)).delivered ++ [msg] ∨
            (runLines rt e st (c :: mid ++ [d])).outQueue
              = (runLines rt e st (c :: mid)).outQueue ++ [msg])) := by
  obtain ⟨hthrew, hnone, hsome⟩ :=
    handleLine_delta rt e (runLines rt e st (c :: mid)).lastOutChar d.line d.now hd
  refine ⟨hnone, ?_⟩
  intro hmode
  obtain ⟨msg, hemit, htype, htext⟩ := hsome hmode
  have hstitch : ∀ t, (stitch e (runLines rt e st (c :: mid)).lastOutChar t).1 = t := by
    intro t
    rcases hcfg with hoff | hnd
    · exact stitch_off e _ t hoff
    · have hst : st.crashed = false := by
        cases hcr : st.crashed with
        | false => rfl
        | true => rw [runLines_crashed rt e _ st hcr] at hlive; rw [hcr] at hlive; cases hlive
      have hfirst : (onLine rt e st c).lastOutChar = '\n' := by
        rcases onLine_lastOutChar rt e st c with h1 | ⟨h1, _⟩
        · cases hcr : (onLine rt e st c).crashed with
          | true =>
            have hrun : runLines rt e st (c :: mid) = onLine rt e st c :=
              runLines_crashed rt e mid _ hcr
            rw [hrun, hcr] at hlive
            cases hlive
          | false =>
            have hth : (handleLine rt e st.lastOutChar c.line c.now).threw = false := by
              cases hth : (handleLine rt e st.lastOutChar c.line c.now).threw with
              | false => rfl
              | true => simp [onLine, hst, hth] at hcr
            have : (onLine rt e st c).lastOutChar
                = (handleLine rt e st.lastOutChar c.line c.now).lastOutChar := by
              simp [onLine, hst, hth]
            rw [this]
            exact handleLine_completed rt e _ _ _ hc hnd
        · rw [h1]
          exact handleLine_completed rt e _ _ _ hc hnd
      have hnl : (runLines rt e st (c :: mid)).lastOutChar = '\n' :=
        runLines_keeps_newline rt e mid (onLine rt e st c) hfirst hmid
      rw [hnl]
      exact stitch_after_newline e t
  have htext' : msg.text = (deltaOf rt d.line).getD "" := by
    rw [htext]
    cases deltaOf rt d.line with
    | none => rfl
    | some t => exact hstitch t
  refine ⟨msg, hemit, htype, htext', ?_⟩
  have hrun : runLines rt e st (c :: mid ++ [d])
      = onLine rt e (runLines rt e st (c :: mid)) d := by
    simp only [runLines, List.foldl_append, List.foldl_cons, List.foldl_nil, List.cons_append]
  rw [hrun]
  unfold onLine
  simp only [hlive, hthrew, hemit, Bool.false_eq_true, if_false]
  unfold outSend
  by_cases hready : ((runLines rt e st (c :: mid)).outReady &&
      (runLines rt e st (c :: mid)).wsOpen) = true
  · cases hok : d.sendOk with
    | true => left; simp [hready]
    | false => right; simp [hready]
  · right
    simp [hready]

/-- Witness for C10, amended: both kinds of events are output, stitching is on. -/
theorem utterance_reset_witness :
    (bothEnv.OUTPUT_MODE = "completed" →
        (handleLine sampleRuntime bothEnv
          (runLines sampleRuntime bothEnv
            (onLine sampleRuntime bothEnv init ⟨lineHello, 0, true⟩)
            (⟨lineDone, 1, true⟩ :: [])).lastOutChar
          (LineEvent.mk lineWorld 2 true).line (LineEvent.mk lineWorld 2 true).now).emit
          = none) ∧
      (bothEnv.OUTPUT_MODE ≠ "completed" →
        ∃ msg,
          (handleLine sampleRuntime bothEnv
            (runLines sampleRuntime bothEnv
              (onLine sampleRuntime bothEnv init ⟨lineHello, 0, true⟩)
              (⟨lineDone, 1, true⟩ :: [])).lastOutChar
            (LineEvent.mk lineWorld 2 true).line (LineEvent.mk lineWorld 2 true).now).emit
            = some msg ∧
          msg.type = "delta" ∧
          msg.text = (deltaOf sampleRuntime (LineEvent.mk lineWorld 2 true).line).getD "" ∧
          ((runLines sampleRuntime bothEnv
                (onLine sampleRuntime bothEnv init ⟨lineHello, 0, true⟩)
                (⟨lineDone, 1, true⟩ :: [] ++ [⟨lineWorld, 2, true⟩])).delivered
              = (runLines sampleRuntime bothEnv
                  (onLine sampleRuntime bothEnv init ⟨lineHello, 0, true⟩)
                  (⟨lineDone, 1, true⟩ :: [])).delivered ++ [msg] ∨
            (runLines sampleRuntime bothEnv
                (onLine sampleRuntime bothEnv init ⟨lineHello, 0, true⟩)
                (⟨lineDone, 1, true⟩ :: [] ++ [⟨lineWorld, 2, true⟩])).outQueue
              = (runLines sampleRuntime bothEnv
                  (onLine sampleRuntime bothEnv init ⟨lineHello, 0, true⟩)
                  (⟨lineDone, 1, true⟩ :: [])).outQueue ++ [msg])) :=
  utterance_reset sampleRuntime bothEnv
    (onLine sampleRuntime bothEnv init ⟨lineHello, 0, true⟩)
    ⟨lineDone, 1, true⟩ [] ⟨lineWorld, 2, true⟩
    (Or.inr (by decide)) (by decide) (by intro m hm; cases hm) (by decide) (by decide)

lemma empty_append_string (d : String) : "" ++ d = d := by
  apply String.ext
  simp

/-- C11. Stitch step: with stitching on, for every `lastOutChar` `p` and fragment `d`,
`stitch` returns `" " ++ d` when `needsSpace p (first character of d)` holds and `d`
otherwise; the new `lastOutChar` is the final character of the returned text, and
`p` when that text is empty.  After a full stop a fragment starting with `W` gets the
space; after a blank no fragment does. -/
theorem stitch_step (e : Env) (p : Char) (d : String) (hon : e.SMART_SPACING = true) :
    (needsSpace (some p) d.data.head? = true → (stitch e p d).1 = " " ++ d) ∧
      (needsSpace (some p) d.data.head? = false → (stitch e p d).1 = d) ∧
      ((stitch e p d).1 = "" → (stitch e p d).2 = p) ∧
      (∀ c, (stitch e p d).1.data.getLast? = some c → (stitch e p d).2 = c) ∧
      (∀ rest : List Char,
        (stitch e '.' (String.mk ('W' :: rest))).1 = " " ++ String.mk ('W' :: rest)) ∧
      (∀ t : String, (stitch e ' ' t).1 = t) := by
  have hstitch : ∀ (q : Char) (t : String),
      stitch e q t =
        ((if needsSpace (some q) t.data.head? then " " else "") ++ t,
          ((if needsSpace (some q) t.data.head? then " " else "") ++ t).data.getLast?.getD q) := by
    intro q t
    simp [stitch, hon]
  refine ⟨?_, ?_, ?_, ?_, ?_, ?_⟩
  · intro h
    rw [hstitch, h]
    rfl
  · intro h
    rw [hstitch, h]
    exact empty_append_string d
  · intro h
    rw [hstitch] at h ⊢
    simp only at h ⊢
    rw [h]
    rfl
  · intro c hc
    rw [hstitch] at hc ⊢
    simp only at hc ⊢
    rw [hc]
    rfl
  · intro rest
    rw [hstitch]
    have : needsSpace (some '.') (String.mk ('W' :: rest)).data.head? = true := by
      simp only [List.head?_cons]
      decide
    rw [this]
    rfl
  · intro t
    rw [hstitch]
    have : needsSpace (some ' ') t.data.head? = false := by
      cases t.data.head? <;> simp [needsSpace, isSpace]
    rw [this]
    exact empty_append_string t

/-- Witness for C11: after `Hello.` the fragment `World` comes out as ` World`. -/
theorem stitch_step_witness :
    bothEnv.SMART_SPACING = true ∧ (stitch bothEnv '.' "World").1 = " " ++ "World" ∧
      (stitch bothEnv '.' "World").2 = 'd' :=
  ⟨rfl, (stitch_step bothEnv '.' "World" rfl).1 (by decide),
    (stitch_step bothEnv '.' "World" rfl).2.2.2.1 'd' (by decide)⟩

/-- While the sink is down every call of `outSend` appends to the queue. -/
lemma runSink_sends_down :
    ∀ (calls : List (OutEvent × Bool)) (st : State),
      (st.outReady && st.wsOpen) = false →
      runSink st (calls.map (fun c => SinkEvent.send c.1 c.2))
        = { st with outQueue := st.outQueue ++ calls.map Prod.fst } := by
  intro calls
  induction calls with
  | nil => intro st _; simp [runSink]
  | cons c cs ih =>
    intro st hdown
    have hstep : runSink st ((c :: cs).map (fun c => SinkEvent.send c.1 c.2))
        = runSink (outSend st c.1 c.2) (cs.map (fun c => SinkEvent.send c.1 c.2)) := rfl
    have hsend : outSend st c.1 c.2 = { st with outQueue := st.outQueue ++ [c.1] } := by
      simp [outSend, hdown]
    rw [hstep, hsend, ih _ (by simpa using hdown)]
    simp [List.append_assoc]

/-- A flush in which every send returns. -/
lemma flushLoop_all_ok (ok : Nat → Bool) :
    ∀ (q : List OutEvent) (k : Nat) (delivered attempted : List OutEvent),
      (∀ j, j < q.length → ok (k + j) = true) →
      flushLoop ok k q delivered attempted = ([], delivered ++ q, attempted ++ q) := by
  intro q
  induction q with
  | nil => intro k delivered attempted _; simp [flushLoop]
  | cons m ms ih =>
    intro k delivered attempted h
    have h0 : ok k = true := by simpa using h 0 (by simp)
    have hrest : ∀ j, j < ms.length → ok (k + 1 + j) = true := by
      intro j hj
      have := h (j + 1) (by simpa using hj)
      rw [show k + 1 + j = k + (j + 1) by omega]
      exact this
    rw [flushLoop, if_pos h0, ih (k + 1) _ _ hrest]
    simp [List.append_assoc]

/-- A flush in which the sends return up to one that throws. -/
lemma flushLoop_fail (ok : Nat → Bool) :
    ∀ (pre : List OutEvent) (k : Nat) (delivered attempted : List OutEvent) (mi : OutEvent)
      (post : List OutEvent),
      (∀ j, j < pre.length → ok (k + j) = true) → ok (k + pre.length) = false →
      flushLoop ok k (pre ++ mi :: post) delivered attempted
        = (mi :: post, delivered ++ pre, attempted ++ pre ++ [mi]) := by
  intro pre
  induction pre with
  | nil =>
    intro k delivered attempted mi post _ hfail
    have : ok k = false := by simpa using hfail
    simp [flushLoop, this]
  | cons m ms ih =>
    intro k delivered attempted mi post h hfail
    have h0 : ok k = true := by simpa using h 0 (by simp)
    have hrest : ∀ j, j < ms.length → ok (k + 1 + j) = true := by
      intro j hj
      have := h (j + 1) (by simpa using hj)
      rw [show k + 1 + j = k + (j + 1) by omega]
      exact this
    have hfail' : ok (k + 1 + ms.length) = false := by
      rw [show k + 1 + ms.length = k + (m :: ms).length by simp; omega]
      exact hfail
    rw [List.cons_append, flushLoop, if_pos h0, ih (k + 1) _ _ mi post hrest hfail']
    simp [List.append_assoc]

/-- C12. Queue drain after outage: when `n` messages are passed to `outSend` while
the sink is down and the queue was empty, they are all queued and none delivered;
when the sink then opens and every send of the flush returns, `send` is called once
on each of them in the order of the calls, the sink has accepted exactly those
messages in that order, and the queue is empty. -/
theorem queue_drain (st : State) (calls : List (OutEvent × Bool)) (ok : Nat → Bool)
    (hdown : (st.outReady && st.wsOpen) = false) (hempty : st.outQueue = [])
    (hok : ∀ k, k < calls.length → ok k = true) :
    (runSink st (calls.map (fun c => SinkEvent.send c.1 c.2))).outQueue
        = calls.map Prod.fst ∧
      (runSink st (calls.map (fun c => SinkEvent.send c.1 c.2))).delivered = st.delivered ∧
      (flushOutQueue
          { runSink st (calls.map (fun c => SinkEvent.send c.1 c.2)) with
            outReady := true, wsOpen := true } ok).2 = calls.map Prod.fst ∧
      (runSink st (calls.map (fun c => SinkEvent.send c.1 c.2) ++ [SinkEvent.opened ok])).delivered
        = st.delivered ++ calls.map Prod.fst ∧
      (runSink st (calls.map (fun c => SinkEvent.send c.1 c.2) ++ [SinkEvent.opened ok])).outQueue
        = [] := by
  have hq := runSink_sends_down calls st hdown
  have hloop := flushLoop_all_ok ok (calls.map Prod.fst) 0 st.delivered []
    (by intro j hj; rw [Nat.zero_add]; exact hok j (by simpa using hj))
  have hopen : runSink st (calls.map (fun c => SinkEvent.send c.1 c.2) ++ [SinkEvent.opened ok])
      = onOutOpen (runSink st (calls.map (fun c => SinkEvent.send c.1 c.2))) ok := by
    simp [runSink, sinkStep]
  rw [hopen, hq]
  simp [onOutOpen, flushOutQueue, hempty, hloop]

/-- Witness for C12: five messages queued before the sink first opens. -/
theorem queue_drain_witness :
    (runSink init
        ([(sampleMsg "1", true), (sampleMsg "2", true), (sampleMsg "3", false),
            (sampleMsg "4", true), (sampleMsg "5", true)].map
          (fun c => SinkEvent.send c.1 c.2) ++ [SinkEvent.opened allOk])).delivered
        = init.delivered ++
          [(sampleMsg "1", true), (sampleMsg "2", true), (sampleMsg "3", false),
            (sampleMsg "4", true), (sampleMsg "5", true)].map Prod.fst ∧
      (runSink init
        ([(sampleMsg "1", true), (sampleMsg "2", true), (sampleMsg "3", false),
            (sampleMsg "4", true), (sampleMsg "5", true)].map
          (fun c => SinkEvent.send c.1 c.2) ++ [SinkEvent.opened allOk])).outQueue = [] :=
  (queue_drain init
    [(sampleMsg "1", true), (sampleMsg "2", true), (sampleMsg "3", false),
      (sampleMsg "4", true), (sampleMsg "5", true)] allOk rfl rfl (fun _ _ => rfl)).2.2.2

/-- Counterexample for C13: a sequence with a send that fails.  The sink is open;
`outSend` is called with `first`, whose send throws, then with `second`, whose send
returns: `second` is accepted by the sink while `first` waits in the queue, and after
a close, a reconnection and an opening whose flush succeeds the sink has accepted
`second` before `first`. -/
theorem delivery_order_violated :
    (runSink init
        [SinkEvent.opened allOk, SinkEvent.send (sampleMsg "first") false,
          SinkEvent.send (sampleMsg "second") true]).delivered.map (fun m => m.text)
        = ["second"] ∧
      (runSink init
        [SinkEvent.opened allOk, SinkEvent.send (sampleMsg "first") false,
          SinkEvent.send (sampleMsg "second") true]).outQueue.map (fun m => m.text)
        = ["first"] ∧
      (runSink init
        [SinkEvent.opened allOk, SinkEvent.send (sampleMsg "first") false,
          SinkEvent.send (sampleMsg "second") true, SinkEvent.closed, SinkEvent.reconnect,
          SinkEvent.opened allOk]).delivered.map (fun m => m.text)
        = ["second", "first"] := by
  decide

lemma noThrow_append_left :
    ∀ (pre post : List SinkEvent), NoThrow (pre ++ post) → NoThrow pre := by
  intro pre
  induction pre with
  | nil => intro _ _; trivial
  | cons ev rest ih =>
    intro post h
    cases ev with
    | send msg sendOk => exact ⟨h.1, ih post h.2⟩
    | opened ok => exact ⟨h.1, ih post h.2⟩
    | closed => exact ih post h
    | reconnect => exact ih post h

/-- As long as no send throws, accepted messages followed by waiting messages are
the calls so far, and nothing waits while the sink is ready and open. -/
lemma runSink_order :
    ∀ (evs : List SinkEvent) (st : State),
      ((st.outReady && st.wsOpen) = true → st.outQueue = []) → NoThrow evs →
      (runSink st evs).delivered ++ (runSink st evs).outQueue
          = st.delivered ++ st.outQueue ++ callsOf evs ∧
        (((runSink st evs).outReady && (runSink st evs).wsOpen) = true →
          (runSink st evs).outQueue = []) := by
  intro evs
  induction evs with
  | nil => intro st hst _; exact ⟨by simp [runSink, callsOf], hst⟩
  | cons ev rest ih =>
    intro st hst hno
    have hrun : runSink st (ev :: rest) = runSink (sinkStep st ev) rest := rfl
    rw [hrun]
    cases ev with
    | send msg sendOk =>
      have hok : sendOk = true := hno.1
      subst hok
      by_cases hready : (st.outReady && st.wsOpen) = true
      · have hq := hst hready
        have hstep : sinkStep st (SinkEvent.send msg true)
            = { st with delivered := st.delivered ++ [msg] } := by
          simp [sinkStep, outSend, hready]
        obtain ⟨h1, h2⟩ := ih (sinkStep st (SinkEvent.send msg true))
          (by rw [hstep]; exact hst) hno.2
        refine ⟨?_, h2⟩
        rw [h1, hstep]
        simp [callsOf, hq]
      · have hstep : sinkStep st (SinkEvent.send msg true)
            = { st with outQueue := st.outQueue ++ [msg] } := by
          simp [sinkStep, outSend, hready]
        obtain ⟨h1, h2⟩ := ih (sinkStep st (SinkEvent.send msg true))
          (by rw [hstep]; exact fun h => absurd h hready) hno.2
        refine ⟨?_, h2⟩
        rw [h1, hstep]
        simp [callsOf, List.append_assoc]
    | opened ok =>
      have hloop := flushLoop_all_ok ok st.outQueue 0 st.delivered [] (fun j _ => hno.1 _)
      have hstep : sinkStep st (SinkEvent.opened ok)
          = { st with outReady := true, wsOpen := true, outQueue := [],
                      delivered := st.delivered ++ st.outQueue } := by
        simp [sinkStep, onOutOpen, flushOutQueue, hloop]
      obtain ⟨h1, h2⟩ := ih (sinkStep st (SinkEvent.opened ok))
        (by rw [hstep]; exact fun _ => rfl) hno.2
      refine ⟨?_, h2⟩
      rw [h1, hstep]
      simp [callsOf]
    | closed =>
      have hstep : sinkStep st SinkEvent.closed
          = { st with outReady := false, wsOpen := false } := rfl
      obtain ⟨h1, h2⟩ := ih (sinkStep st SinkEvent.closed)
        (by rw [hstep]; intro h; simp at h) hno
      refine ⟨?_, h2⟩
      rw [h1, hstep]
      simp [callsOf]
    | reconnect =>
      have hstep : sinkStep st SinkEvent.reconnect
          = { st with outReady := false, wsOpen := false } := rfl
      obtain ⟨h1, h2⟩ := ih (sinkStep st SinkEvent.reconnect)
        (by rw [hstep]; intro h; simp at h) hno
      refine ⟨?_, h2⟩
      rw [h1, hstep]
      simp [callsOf]

/-- C13, amended. Delivery order: for every sequence of sink events (calls of
`outSend`, the sink opening, closing and reconnecting) in which no call of
`outWs.send` throws, started with nothing waiting while the sink is ready and open,
at every point of the sequence the messages accepted by the sink followed by the
messages waiting in the queue are the messages passed to `outSend`, in the order of
the calls: the accepted messages keep that order, every waiting message is newer
than every accepted one, and nothing waits while the sink is ready and open. -/
theorem delivery_order (st : State) (evs : List SinkEvent)
    (hst : (st.outReady && st.wsOpen) = true → st.outQueue = []) (hno : NoThrow evs) :
    (∀ pre post, evs = pre ++ post →
        (runSink st pre).delivered ++ (runSink st pre).outQueue
            = st.delivered ++ st.outQueue ++ callsOf pre ∧
          (((runSink st pre).outReady && (runSink st pre).wsOpen) = true →
            (runSink st pre).outQueue = [])) ∧
      (runSink st evs).delivered ++ (runSink st evs).outQueue
        = st.delivered ++ st.outQueue ++ callsOf evs := by
  refine ⟨?_, (runSink_order evs st hst hno).1⟩
  intro pre post hsplit
  rw [hsplit] at hno
  exact runSink_order pre st hst (noThrow_append_left pre post hno)

/-- Witness for C13, amended: two messages queued during an outage, one sent after
the sink has opened, one queued after it has closed. -/
theorem delivery_order_witness :
    (runSink init
        [SinkEvent.send (sampleMsg "1") true, SinkEvent.send (sampleMsg "2") true,
          SinkEvent.opened allOk, SinkEvent.send (sampleMsg "3") true, SinkEvent.closed,
          SinkEvent.send (sampleMsg "4") true]).delivered ++
      (runSink init
        [SinkEvent.send (sampleMsg "1") true, SinkEvent.send (sampleMsg "2") true,
          SinkEvent.opened allOk, SinkEvent.send (sampleMsg "3") true, SinkEvent.closed,
          SinkEvent.send (sampleMsg "4") true]).outQueue
      = init.delivered ++ init.outQueue ++
          callsOf
            [SinkEvent.send (sampleMsg "1") true, SinkEvent.send (sampleMsg "2") true,
              SinkEvent.opened allOk, SinkEvent.send (sampleMsg "3") true, SinkEvent.closed,
              SinkEvent.send (sampleMsg "4") true] :=
  (delivery_order init
    [SinkEvent.send (sampleMsg "1") true, SinkEvent.send (sampleMsg "2") true,
      SinkEvent.opened allOk, SinkEvent.send (sampleMsg "3") true, SinkEvent.closed,
      SinkEvent.send (sampleMsg "4") true]
    (by intro h; cases h)
    ⟨rfl, rfl, fun _ => rfl, rfl, rfl, trivial⟩).2


/-- C14. Partial flush failure: when the sink is ready, the queue is
`pre ++ mi :: post`, the sends of `pre` return and the send of `mi` throws,
`flushOutQueue` delivers exactly `pre` in order, calls `send` on `pre` and `mi` and on
nothing after it, and leaves the queue `mi :: post`; when the sink is not ready it
calls no send and leaves the state as it was. -/
theorem partial_flush (st : State) (ok : Nat → Bool) (pre : List OutEvent) (mi : OutEvent)
    (post : List OutEvent) (hready : st.outReady = true)
    (hqueue : st.outQueue = pre ++ mi :: post)
    (hpre : ∀ k, k < pre.length → ok k = true) (hfail : ok pre.length = false) :
    (flushOutQueue st ok).1.delivered = st.delivered ++ pre ∧
      (flushOutQueue st ok).2 = pre ++ [mi] ∧
      (flushOutQueue st ok).1.outQueue = mi :: post ∧
      (∀ (st' : State) (ok' : Nat → Bool), st'.outReady = false →
        flushOutQueue st' ok' = (st', [])) := by
  have hloop := flushLoop_fail ok pre 0 st.delivered [] mi post
    (by intro j hj; rw [Nat.zero_add]; exact hpre j hj)
    (by rw [Nat.zero_add]; exact hfail)
  refine ⟨?_, ?_, ?_, ?_⟩
  · simp [flushOutQueue, hready, hqueue, hloop]
  · simp [flushOutQueue, hready, hqueue, hloop]
  · simp [flushOutQueue, hready, hqueue, hloop]
  · intro st' ok' h
    simp [flushOutQueue, h]

/-- Witness for C14: of three queued messages the second fails. -/
theorem partial_flush_witness :
    (flushOutQueue
        { init with outReady := true, wsOpen := true,
                    outQueue := [sampleMsg "1"] ++ sampleMsg "2" :: [sampleMsg "3"] }
        (fun k => decide (k ≠ 1))).1.delivered
        = ({ init with outReady := true, wsOpen := true,
                       outQueue := [sampleMsg "1"] ++ sampleMsg "2" :: [sampleMsg "3"] }
            : State).delivered ++ [sampleMsg "1"] ∧
      (flushOutQueue
        { init with outReady := true, wsOpen := true,
                    outQueue := [sampleMsg "1"] ++ sampleMsg "2" :: [sampleMsg "3"] }
        (fun k => decide (k ≠ 1))).2 = [sampleMsg "1"] ++ [sampleMsg "2"] ∧
      (flushOutQueue
        { init with outReady := true, wsOpen := true,
                    outQueue := [sampleMsg "1"] ++ sampleMsg "2" :: [sampleMsg "3"] }
        (fun k => decide (k ≠ 1))).1.outQueue = sampleMsg "2" :: [sampleMsg "3"] :=
  ⟨(partial_flush _ (fun k => decide (k ≠ 1)) [sampleMsg "1"] (sampleMsg "2") [sampleMsg "3"]
      rfl rfl (by intro k hk; simp at hk; subst hk; rfl) rfl).1,
    (partial_flush _ (fun k => decide (k ≠ 1)) [sampleMsg "1"] (sampleMsg "2") [sampleMsg "3"]
      rfl rfl (by intro k hk; simp at hk; subst hk; rfl) rfl).2.1,
    (partial_flush _ (fun k => decide (k ≠ 1)) [sampleMsg "1"] (sampleMsg "2") [sampleMsg "3"]
      rfl rfl (by intro k hk; simp at hk; subst hk; rfl) rfl).2.2.1⟩

end Forwarder

/-! ## Broadcast Server: proofs -/

namespace Broadcast

lemma lookup_cons_ne (k' a : String) (b : List ConnId) (t : Table) (h : k' ≠ a) :
    List.lookup k' ((a, b) :: t) = List.lookup k' t := by
  have : (k' == a) = false := by simpa using h
  simp [List.lookup_cons, this]

lemma lookup_cons_eq (a : String) (b : List ConnId) (t : Table) :
    List.lookup a ((a, b) :: t) = some b := by
  simp [List.lookup_cons]

lemma lookup_map_replace (k : String) (v : List ConnId) (k' : String) :
    ∀ m : Table,
      List.lookup k' (m.map (fun p => if p.1 = k then (k, v) else p))
        = if k' = k then (if (m.lookup k).isSome then some v else none) else m.lookup k' := by
  intro m
  induction m with
  | nil => simp
  | cons p t ih =>
    obtain ⟨a, b⟩ := p
    rw [List.map_cons]
    by_cases hak : a = k
    · subst hak
      simp only [if_true]
      by_cases hk : k' = a
      · subst hk
        rw [lookup_cons_eq, lookup_cons_eq]
        simp
      · rw [lookup_cons_ne _ _ _ _ hk, lookup_cons_ne _ _ _ _ hk, ih]
        simp [hk]
    · simp only [hak, if_false]
      by_cases hk : k' = k
      · subst hk
        have hne : k' ≠ a := fun h => hak h.symm
        rw [lookup_cons_ne _ _ _ _ hne, lookup_cons_ne _ _ _ _ hne, ih]
      · by_cases hka : k' = a
        · subst hka
          rw [lookup_cons_eq, lookup_cons_eq]
          simp [hk]
        · rw [lookup_cons_ne _ _ _ _ hka, lookup_cons_ne _ _ _ _ hka, ih]
          simp [hk]

lemma mapGet_mapSet (m : Table) (k : String) (v : List ConnId) (k' : String) :
    mapGet (mapSet m k v) k' = if k' = k then some v else mapGet m k' := by
  unfold mapSet mapGet mapHas
  by_cases h : (m.lookup k).isSome = true
  · rw [if_pos h, lookup_map_replace]
    by_cases hk : k' = k
    · simp [hk, h]
    · simp [hk]
  · rw [if_neg h]
    have hnone : m.lookup k = none := by
      cases hl : m.lookup k with
      | none => rfl
      | some x => rw [hl] at h; simp at h
    rw [List.lookup_append]
    by_cases hk : k' = k
    · subst hk
      simp [hnone, List.lookup_cons]
    · have : (k' == k) = false := by simpa using hk
      simp [hk, List.lookup_cons, this]

lemma mapGet_mapDelete (k k' : String) :
    ∀ m : Table, mapGet (mapDelete m k) k' = if k' = k then none else mapGet m k' := by
  intro m
  unfold mapGet mapDelete
  induction m with
  | nil => simp
  | cons p t ih =>
    obtain ⟨a, b⟩ := p
    by_cases hak : a = k
    · subst hak
      by_cases hk : k' = a
      · subst hk
        simpa [List.filter_cons] using ih
      · have : (k' == a) = false := by simpa using hk
        simp only [List.filter_cons, ne_eq, not_true_eq_false, decide_False,
          Bool.false_eq_true, if_false, ih, hk, List.lookup_cons, this]
    · by_cases hka : k' = a
      · subst hka
        simp [List.filter_cons, hak, List.lookup_cons]
      · have h1 : (k' == a) = false := by simpa using hka
        simp only [List.filter_cons, ne_eq, hak, not_false_eq_true, decide_True, if_true,
          List.lookup_cons, h1, ih]

lemma mapHas_eq (m : Table) (k : String) : mapHas m k = (mapGet m k).isSome := rfl

/-- The members of every session after a connection that brings a session id. -/
lemma membersOf_onConnection (st : State) (ws : ConnId) (sid : String) (hsid : sid ≠ "")
    (S : String) :
    mapGet (onConnection st ws (some sid)).clients S
      = if S = sid then some (setAdd (membersOf st sid) ws) else mapGet st.clients S := by
  unfold onConnection
  simp only [hsid, if_false]
  by_cases hhas : mapHas st.clients sid = true
  · simp only [hhas, Bool.not_true, Bool.false_eq_true, if_false, mapGet_mapSet, membersOf]
  · have hnone : mapGet st.clients sid = none := by
      rw [mapHas_eq] at hhas
      cases hl : mapGet st.clients sid with
      | none => rfl
      | some x => rw [hl] at hhas; simp at hhas
    simp only [hhas, Bool.not_false, if_true, mapGet_mapSet, membersOf, hnone, Option.getD_some,
      Option.getD_none]
    by_cases hS : S = sid
    · simp [hS]
    · simp [hS]

/-- The members of every session after the `'close'` handler of a connection has run. -/
lemma mapGet_closeHandler (st : State) (ws : ConnId) (sid : String) (S : String) :
    mapGet (closeHandler st ws sid).clients S
      = if S = sid then
          (if mapHas st.clients sid ∧ setDelete (membersOf st sid) ws ≠ []
            then some (setDelete (membersOf st sid) ws) else none)
        else mapGet st.clients S := by
  unfold closeHandler
  by_cases hhas : mapHas st.clients sid = true
  · simp only [hhas, if_true, true_and]
    by_cases hempty : setDelete ((mapGet st.clients sid).getD []) ws = []
    · have hlen : (setDelete ((mapGet st.clients sid).getD []) ws).length = 0 := by
        rw [hempty]; rfl
      simp only [membersOf, hempty, ne_eq, not_true_eq_false, if_false, List.length_nil,
        if_true]
      rw [mapGet_mapDelete, mapGet_mapSet]
      by_cases hS : S = sid
      · simp [hS]
      · simp [hS]
    · have hlen : ¬ (setDelete ((mapGet st.clients sid).getD []) ws).length = 0 := by
        intro h; exact hempty (List.length_eq_zero.mp h)
      simp only [hlen, if_false, mapGet_mapSet, membersOf, ne_eq, hempty, not_false_eq_true,
        if_true]
  · have hnone : mapGet st.clients sid = none := by
      rw [mapHas_eq] at hhas
      cases hl : mapGet st.clients sid with
      | none => rfl
      | some x => rw [hl] at hhas; simp at hhas
    simp only [hhas, Bool.false_eq_true, if_false, false_and]
    by_cases hS : S = sid
    · simp [hS, hnone]
    · simp [hS]

lemma mem_of_lookup_eq_some (k : ConnId) (v : String) :
    ∀ l : List (ConnId × String), l.lookup k = some v → (k, v) ∈ l := by
  intro l
  induction l with
  | nil => intro h; simp at h
  | cons p t ih =>
    obtain ⟨a, b⟩ := p
    intro h
    rw [List.lookup_cons] at h
    by_cases hk : k = a
    · subst hk
      simp at h
      subst h
      exact List.mem_cons_self _ _
    · have : (k == a) = false := by simpa using hk
      rw [this] at h
      exact List.mem_cons_of_mem _ (ih h)

lemma closeHandler_closeHandlers (st : State) (ws : ConnId) (sid : String) :
    (closeHandler st ws sid).closeHandlers = st.closeHandlers := by
  unfold closeHandler
  dsimp only
  split_ifs <;> rfl

lemma membersOf_closeHandler (st : State) (ws : ConnId) (sid : String) (S : String) :
    membersOf (closeHandler st ws sid) S
      = if S = sid then setDelete (membersOf st sid) ws else membersOf st S := by
  have h := mapGet_closeHandler st ws sid S
  show (mapGet (closeHandler st ws sid).clients S).getD [] = _
  rw [h]
  by_cases hS : S = sid
  · subst hS
    simp only [if_true]
    by_cases hhas : mapHas st.clients S = true
    · by_cases hd : setDelete (membersOf st S) ws = []
      · rw [if_neg (fun hc => hc.2 hd), hd]
        rfl
      · rw [if_pos ⟨hhas, hd⟩]
        rfl
    · have hnone : mapGet st.clients S = none := by
        rw [mapHas_eq] at hhas
        cases hl : mapGet st.clients S with
        | none => rfl
        | some x => rw [hl] at hhas; simp at hhas
      rw [if_neg (fun hc => hhas hc.1)]
      simp [membersOf, hnone, setDelete]
  · simp only [hS, if_false]
    rfl

lemma filter_map_fst_ne (ws : ConnId) (q : ConnId × String → Bool)
    (l : List (ConnId × String)) :
    setDelete ((l.filter q).map Prod.fst) ws
      = ((l.filter (fun p => decide (p.1 ≠ ws))).filter q).map Prod.fst := by
  unfold setDelete
  rw [List.filter_map, List.filter_filter, List.filter_filter]
  congr 1
  apply List.filter_congr
  intro x _
  simp [Bool.and_comm]

/-- A connection that has not arrived yet has no `'close'` handler and is not live. -/
lemma fresh_facts (st : State) (l : List (ConnId × String)) (seen : List ConnId)
    (h : Agrees st l seen) (ws : ConnId) (hws : ws ∉ seen) :
    st.closeHandlers.lookup ws = none ∧ ∀ p ∈ l, p.1 ≠ ws := by
  obtain ⟨_, _, h3, h4⟩ := h
  have hnone : st.closeHandlers.lookup ws = none := by
    cases hl : st.closeHandlers.lookup ws with
    | none => rfl
    | some v => exact absurd (h4 _ (mem_of_lookup_eq_some ws v _ hl)) hws
  refine ⟨hnone, ?_⟩
  intro p hp hpw
  have := h3 p hp
  rw [hpw, hnone] at this
  cases this

/-- A rejected connection changes neither the table nor the handlers. -/
lemma agrees_of_same (st st' : State) (l : List (ConnId × String)) (seen seen' : List ConnId)
    (h : Agrees st l seen) (hc : st'.clients = st.clients)
    (hh : st'.closeHandlers = st.closeHandlers) (hs : ∀ x ∈ seen, x ∈ seen') :
    Agrees st' l seen' := by
  obtain ⟨h1, h2, h3, h4⟩ := h
  refine ⟨?_, ?_, ?_, ?_⟩
  · intro S
    have := h1 S
    unfold membersOf at this ⊢
    rw [hc]; exact this
  · intro S ms hm
    rw [hc] at hm
    exact h2 S ms hm
  · intro p hp
    rw [hh]; exact h3 p hp
  · intro p hp
    rw [hh] at hp
    exact hs _ (h4 p hp)

/-- One event keeps the server in agreement with the live subscribers. -/
lemma step_agrees (st : State) (l : List (ConnId × String)) (seen : List ConnId) (ev : Event)
    (h : Agrees st l seen) (hfresh : ∀ ws, ev.connIdOf = some ws → ws ∉ seen) :
    Agrees (step st ev) (liveStep l ev) (seen ++ ev.connIdOf.toList) := by
  cases ev with
  | connection ws sessionId =>
    have hws : ws ∉ seen := hfresh ws rfl
    cases sessionId with
    | none =>
      exact agrees_of_same st _ l seen _ h rfl rfl (fun x hx => List.mem_append_left _ hx)
    | some sid =>
      by_cases hsid : sid = ""
      · have hstep : step st (Event.connection ws (some sid))
            = { st with closeCalls := st.closeCalls ++ [(ws, 1008)] } := by
          simp [step, onConnection, hsid]
        have hlive : liveStep l (Event.connection ws (some sid)) = l := by
          simp [liveStep, hsid]
        rw [hstep, hlive]
        exact agrees_of_same st _ l seen _ h rfl rfl (fun x hx => List.mem_append_left _ hx)
      · obtain ⟨hnone, hnotlive⟩ := fresh_facts st l seen h ws hws
        obtain ⟨h1, h2, h3, h4⟩ := h
        have hlive : liveStep l (Event.connection ws (some sid)) = l ++ [(ws, sid)] := by
          simp [liveStep, hsid]
        have hget := membersOf_onConnection st ws sid hsid
        have hhandlers : (step st (Event.connection ws (some sid))).closeHandlers
            = st.closeHandlers ++ [(ws, sid)] := by
          simp [step, onConnection, hsid]
        have hnotmem : ws ∉ membersOf st sid := by
          rw [h1 sid]
          intro hm
          obtain ⟨p, hp, hpw⟩ := List.mem_map.mp hm
          exact hnotlive p (List.mem_filter.mp hp).1 hpw
        have hadd : setAdd (membersOf st sid) ws = membersOf st sid ++ [ws] := by
          simp [setAdd, hnotmem]
        rw [hlive]
        refine ⟨?_, ?_, ?_, ?_⟩
        · intro S
          show (mapGet (onConnection st ws (some sid)).clients S).getD [] = _
          rw [hget S]
          by_cases hS : S = sid
          · subst hS
            simp only [if_true, Option.getD_some]
            rw [hadd, h1 S]
            simp [List.filter_append, List.filter_cons]
          · have hS' : ¬ sid = S := fun hx => hS hx.symm
            simp only [hS, if_false, List.filter_append, List.map_append]
            have := h1 S
            unfold membersOf at this
            rw [this]
            simp [List.filter_cons, hS']
        · intro S ms hm
          have hm' : mapGet (onConnection st ws (some sid)).clients S = some ms := hm
          rw [hget S] at hm'
          by_cases hS : S = sid
          · simp only [hS, if_true, Option.some.injEq] at hm'
            rw [← hm', hadd]
            simp
          · simp only [hS, if_false] at hm'
            exact h2 S ms hm'
        · intro p hp
          rw [hhandlers, List.lookup_append]
          rcases List.mem_append.mp hp with hp | hp
          · rw [h3 p hp]; rfl
          · rw [List.mem_singleton.mp hp]
            simp [hnone, List.lookup_cons]
        · intro p hp
          rw [hhandlers] at hp
          rcases List.mem_append.mp hp with hp | hp
          · exact List.mem_append_left _ (h4 p hp)
          · rw [List.mem_singleton.mp hp]
            simp [Event.connIdOf]
  | close ws =>
    have hseen : seen ++ (Event.close ws).connIdOf.toList = seen := by
      simp [Event.connIdOf]
    rw [hseen]
    cases hl : st.closeHandlers.lookup ws with
    | none =>
      have hstep : step st (Event.close ws) = st := by simp [step, onWsClose, hl]
      have hlive : liveStep l (Event.close ws) = l := by
        simp only [liveStep]
        apply List.filter_eq_self.mpr
        intro p hp
        have hne : p.1 ≠ ws := by
          intro hpw
          have := h.2.2.1 p hp
          rw [hpw, hl] at this
          cases this
        simpa using hne
      rw [hstep, hlive]
      exact h
    | some sid =>
      have hstep : step st (Event.close ws) = closeHandler st ws sid := by
        simp [step, onWsClose, hl]
      obtain ⟨h1, h2, h3, h4⟩ := h
      rw [hstep]
      refine ⟨?_, ?_, ?_, ?_⟩
      · intro S
        rw [membersOf_closeHandler]
        simp only [liveStep]
        by_cases hS : S = sid
        · subst hS
          rw [if_pos rfl, h1 S, filter_map_fst_ne]
        · rw [if_neg hS, h1 S, List.filter_filter]
          congr 1
          apply List.filter_congr
          intro p hp
          by_cases hpS : p.2 = S
          · have hne : p.1 ≠ ws := by
              intro hpw
              have := h3 p hp
              rw [hpw, hl] at this
              have hsid : sid = p.2 := Option.some.inj this
              exact hS (by rw [← hpS, hsid])
            simp [hpS, hne]
          · simp [hpS]
      · intro S ms hm
        rw [mapGet_closeHandler] at hm
        by_cases hS : S = sid
        · simp only [hS, if_true] at hm
          by_cases hc : mapHas st.clients sid = true ∧ setDelete (membersOf st sid) ws ≠ []
          · rw [if_pos hc] at hm
            rw [← Option.some.inj hm]
            exact hc.2
          · rw [if_neg hc] at hm
            cases hm
        · simp only [hS, if_false] at hm
          exact h2 S ms hm
      · intro p hp
        rw [closeHandler_closeHandlers]
        exact h3 p (List.mem_filter.mp hp).1
      · intro p hp
        rw [closeHandler_closeHandlers] at hp
        exact h4 p hp

/-- Every sequence of events keeps the server in agreement with the live subscribers. -/
lemma foldl_agrees :
    ∀ (evs : List Event) (st : State) (l : List (ConnId × String)) (seen : List ConnId),
      Agrees st l seen → (seen ++ evs.filterMap Event.connIdOf).Nodup →
      Agrees (evs.foldl step st) (evs.foldl liveStep l) (seen ++ evs.filterMap Event.connIdOf) := by
  intro evs
  induction evs with
  | nil => intro st l seen h _; simpa using h
  | cons ev rest ih =>
    intro st l seen h hnd
    have hsplit : seen ++ (ev :: rest).filterMap Event.connIdOf
        = (seen ++ ev.connIdOf.toList) ++ rest.filterMap Event.connIdOf := by
      rw [List.filterMap_cons]
      cases ev.connIdOf <;> simp
    rw [hsplit] at hnd ⊢
    have hfresh : ∀ ws, ev.connIdOf = some ws → ws ∉ seen := by
      intro ws hws hmem
      rw [hws] at hnd
      have h1 : (seen ++ [ws]).Nodup := (List.nodup_append.mp hnd).1
      have h2 := List.nodup_append.mp h1
      exact h2.2.2 hmem (List.mem_singleton_self ws)
    exact ih _ _ _ (step_agrees st l seen ev h hfresh) hnd

lemma init_agrees : Agrees init [] [] := by
  refine ⟨?_, ?_, ?_, ?_⟩
  · intro S; rfl
  · intro S ms hm; cases hm
  · intro p hp; cases hp
  · intro p hp; cases hp

lemma run_agrees (evs : List Event) (hfresh : FreshIds evs) :
    Agrees (run init evs) (live evs) (evs.filterMap Event.connIdOf) := by
  have := foldl_agrees evs init [] [] init_agrees (by simpa using hfresh)
  simpa [run, live] using this

/-- C15. Rejection without session id: a connection whose request has no `sessionId`
parameter, or an empty one, is closed with code 1008, gets no acknowledgment and no
`'close'` handler, and leaves the table as it was, so `getClientCount` of every
session and `getActiveSessions` are unchanged. -/
theorem reject_without_session_id (st : State) (ws : ConnId) (sessionId : Option String)
    (hno : sessionId = none ∨ sessionId = some "") :
    (onConnection st ws sessionId).closeCalls = st.closeCalls ++ [(ws, 1008)] ∧
      (onConnection st ws sessionId).acks = st.acks ∧
      (onConnection st ws sessionId).closeHandlers = st.closeHandlers ∧
      (onConnection st ws sessionId).clients = st.clients ∧
      (∀ S, getClientCount (onConnection st ws sessionId) S = getClientCount st S) ∧
      getActiveSessions (onConnection st ws sessionId) = getActiveSessions st := by
  have h : onConnection st ws sessionId
      = { st with closeCalls := st.closeCalls ++ [(ws, 1008)] } := by
    rcases hno with h | h <;> subst h <;> simp [onConnection]
  rw [h]
  exact ⟨rfl, rfl, rfl, rfl, fun _ => rfl, rfl⟩

/-- Witness for C15: an empty session id, with one session already in the table. -/
theorem reject_without_session_id_witness :
    (onConnection (run init [Event.connection 1 (some "s")]) 2 (some "")).closeCalls
        = (run init [Event.connection 1 (some "s")]).closeCalls ++ [(2, 1008)] ∧
      (onConnection (run init [Event.connection 1 (some "s")]) 2 (some "")).clients
        = [("s", [1])] :=
  ⟨(reject_without_session_id (run init [Event.connection 1 (some "s")]) 2 (some "")
      (Or.inr rfl)).1,
    ((reject_without_session_id (run init [Event.connection 1 (some "s")]) 2 (some "")
      (Or.inr rfl)).2.2.2.1).trans (by decide)⟩

lemma live_append (evs : List Event) (ev : Event) :
    live (evs ++ [ev]) = liveStep (live evs) ev := by
  simp [live, List.foldl_append]

/-- The table, read through `clients.has` and `getClientCount`, after a sequence of
events in which every connection is a new one. -/
lemma lifecycle_core (evs : List Event) (hfresh : FreshIds evs) :
    (∀ S, mapHas (run init evs).clients S = true ↔ 0 < liveCount evs S) ∧
      NonEmptyEntries (run init evs) ∧
      (∀ S, getClientCount (run init evs) S = liveCount evs S) := by
  obtain ⟨h1, h2, _, _⟩ := run_agrees evs hfresh
  have hlen : ∀ S, (membersOf (run init evs) S).length = liveCount evs S := by
    intro S
    rw [h1 S, List.length_map]
    rfl
  have hhas : ∀ S, mapHas (run init evs).clients S = true ↔ membersOf (run init evs) S ≠ [] := by
    intro S
    rw [mapHas_eq]
    unfold membersOf
    cases hg : mapGet (run init evs).clients S with
    | none => simp
    | some ms =>
      have := h2 S ms hg
      simp [this]
  refine ⟨?_, h2, ?_⟩
  · intro S
    rw [hhas S, ← hlen S]
    exact List.length_pos.symm
  · intro S
    unfold getClientCount
    by_cases hh : mapHas (run init evs).clients S = true
    · rw [if_pos hh]
      exact hlen S
    · rw [if_neg hh, ← hlen S]
      have : membersOf (run init evs) S = [] := by
        by_contra hne
        exact hh ((hhas S).mpr hne)
      rw [this]
      rfl

/-- C16. Session lifecycle invariant: after every sequence of connect and disconnect
events (every connection being a new one), the table has an entry for `S` exactly
when `S` has a live subscriber, no entry maps to an empty set, and
`getClientCount S` is the number of live subscribers of `S`; and one more event
removes the entry for `S` exactly when it is a disconnect that takes that number
from a positive value to 0. -/
theorem session_lifecycle (evs : List Event) (hfresh : FreshIds evs) :
    (∀ S, mapHas (run init evs).clients S = true ↔ 0 < liveCount evs S) ∧
      (∀ S ms, mapGet (run init evs).clients S = some ms → ms ≠ []) ∧
      (∀ S, getClientCount (run init evs) S = liveCount evs S) ∧
      (∀ ev, FreshIds (evs ++ [ev]) → ∀ S,
        ((mapHas (run init evs).clients S = true ∧
            mapHas (run init (evs ++ [ev])).clients S = false) ↔
          (∃ ws, ev = Event.close ws ∧ 0 < liveCount evs S ∧
            liveCount (evs ++ [ev]) S = 0))) := by
  obtain ⟨c1, c2, c3⟩ := lifecycle_core evs hfresh
  refine ⟨c1, c2, c3, ?_⟩
  intro ev hfresh' S
  obtain ⟨d1, _, _⟩ := lifecycle_core (evs ++ [ev]) hfresh'
  have hafter : mapHas (run init (evs ++ [ev])).clients S = false ↔
      liveCount (evs ++ [ev]) S = 0 := by
    constructor
    · intro h
      by_contra hne
      have : mapHas (run init (evs ++ [ev])).clients S = true :=
        (d1 S).mpr (Nat.pos_of_ne_zero hne)
      rw [h] at this
      cases this
    · intro h
      cases hb : mapHas (run init (evs ++ [ev])).clients S with
      | false => rfl
      | true =>
        have := (d1 S).mp hb
        omega
  constructor
  · rintro ⟨hb, ha⟩
    have hpos := (c1 S).mp hb
    have hzero := hafter.mp ha
    cases ev with
    | close ws => exact ⟨ws, rfl, hpos, hzero⟩
    | connection ws sessionId =>
      exfalso
      have hmono : liveCount evs S ≤ liveCount (evs ++ [Event.connection ws sessionId]) S := by
        unfold liveCount
        rw [live_append]
        cases sessionId with
        | none => simp [liveStep]
        | some sid =>
          by_cases hsid : sid = ""
          · simp [liveStep, hsid]
          · simp only [liveStep, hsid, if_false, List.filter_append, List.length_append]
            omega
      omega
  · rintro ⟨ws, _, hpos, hzero⟩
    exact ⟨(c1 S).mpr hpos, hafter.mpr hzero⟩

/-- Witness for C16: two subscribers of one session come and go. -/
theorem session_lifecycle_witness :
    FreshIds [Event.connection 1 (some "s"), Event.connection 2 (some "s"), Event.close 1] ∧
      getClientCount
        (run init [Event.connection 1 (some "s"), Event.connection 2 (some "s"), Event.close 1])
        "s"
        = liveCount
          [Event.connection 1 (some "s"), Event.connection 2 (some "s"), Event.close 1] "s" ∧
      ((mapHas (run init
            [Event.connection 1 (some "s"), Event.connection 2 (some "s"),
              Event.close 1]).clients "s" = true ∧
          mapHas (run init
            ([Event.connection 1 (some "s"), Event.connection 2 (some "s"), Event.close 1] ++
              [Event.close 2])).clients "s" = false) ↔
        (∃ ws, Event.close 2 = Event.close ws ∧
          0 < liveCount
            [Event.connection 1 (some "s"), Event.connection 2 (some "s"), Event.close 1] "s" ∧
          liveCount
            ([Event.connection 1 (some "s"), Event.connection 2 (some "s"), Event.close 1] ++
              [Event.close 2]) "s" = 0)) :=
  ⟨by decide,
    (session_lifecycle
      [Event.connection 1 (some "s"), Event.connection 2 (some "s"), Event.close 1]
      (by decide)).2.2.1 "s",
    (session_lifecycle
      [Event.connection 1 (some "s"), Event.connection 2 (some "s"), Event.close 1]
      (by decide)).2.2.2 (Event.close 2) (by decide) "s"⟩

/-- The `forEach` of `broadcastToSession`, from any point of the iteration. -/
lemma broadcastLoop_spec (isOpen sendOk : ConnId → Bool) :
    ∀ (cs : List ConnId) (n : Nat) (attempted reached : List ConnId),
      broadcastLoop isOpen sendOk cs (n, attempted, reached)
        = (n + (cs.filter (fun c => isOpen c && sendOk c)).length,
            attempted ++ cs.filter isOpen,
            reached ++ cs.filter (fun c => isOpen c && sendOk c)) := by
  intro cs
  induction cs with
  | nil => intro n attempted reached; simp [broadcastLoop]
  | cons c cs ih =>
    intro n attempted reached
    by_cases ho : isOpen c = true
    · by_cases hs : sendOk c = true
      · simp only [broadcastLoop, ho, hs, if_true, ih, List.filter_cons, Bool.and_self,
          List.length_cons, List.append_assoc, List.singleton_append]
        simp only [Prod.mk.injEq, and_true]
        omega
      · simp only [broadcastLoop, ho, hs, if_true, Bool.false_eq_true, if_false, ih,
          List.filter_cons, Bool.and_false, List.append_assoc, List.singleton_append]
    · simp only [broadcastLoop, ho, Bool.false_eq_true, if_false, ih, List.filter_cons,
        Bool.false_and]

/-- C17. Broadcast count: `broadcastToSession` calls `send` on every registered
subscriber of `S` whose connection is open, whatever the fate of the other sends; the
number returned is the number of subscribers whose send returned, 0 when `S` has no
entry; the server state, and so the table, is as before. -/
theorem broadcast_count (st : State) (S : String) (isOpen sendOk : ConnId → Bool) :
    (broadcastToSession st S isOpen sendOk).attempted = (membersOf st S).filter isOpen ∧
      (broadcastToSession st S isOpen sendOk).reached
        = (membersOf st S).filter (fun c => isOpen c && sendOk c) ∧
      (broadcastToSession st S isOpen sendOk).sentCount
        = ((membersOf st S).filter (fun c => isOpen c && sendOk c)).length ∧
      (mapHas st.clients S = false → (broadcastToSession st S isOpen sendOk).sentCount = 0) ∧
      (broadcastToSession st S isOpen sendOk).st = st ∧
      (broadcastToSession st S isOpen sendOk).st.clients = st.clients := by
  unfold broadcastToSession
  by_cases hh : mapHas st.clients S = true
  · simp only [hh, Bool.not_true, Bool.false_eq_true, if_false, broadcastLoop_spec, membersOf]
    simp
  · have hnone : mapGet st.clients S = none := by
      rw [mapHas_eq] at hh
      cases hl : mapGet st.clients S with
      | none => rfl
      | some x => rw [hl] at hh; simp at hh
    simp [hh, membersOf, hnone]

end Broadcast
